import Mathlib

/-!
# allmark: view-model mapper and tag index

A shallow embedding of `mapper/mapper.go` (the projection of a content tree
into a tree of view models) and of `repository/tagmap.go` (the index from tags
to the items carrying them), with the properties proved about them.

Pointers to items are natural numbers (`Item.addr`); a Go map is an association
list read through `TagMap.get`; the recursion of `getModel` through the item
resolver, which the source does not bound, is bounded by a fuel argument.
-/

namespace Allmark

/-! ## Data model -/

/-- Modelled from the spec: the type of the creation and modification timestamps
of the metadata (`time.Time`), which only `formatDate` reads. -/
abbrev Time := Int

/-- Modelled from the spec: type `repository.Tag`, declared outside the sources: a
normalized name, comparable so that it can be a map key (two tags with the same
name are the same key). -/
structure Tag where
  name : String
  deriving DecidableEq, Repr

/-- Modelled from the spec: method `Tag.Name`, the display name of the tag. -/
def Tag.Name (tag : Tag) : String := tag.name

/-- Modelled from the spec: an element of `repository.Locations`, declared outside
the sources: a reference to another item by name. -/
structure Location where
  name : String
  deriving DecidableEq, Repr

/-- Modelled from the spec: method `Location.String`, the string form of the
reference, which is handed to the item resolver. -/
def Location.String (location : Location) : String := location.name

/-- Modelled from the spec: type `repository.GeoInformation`, declared outside the
sources, with the fields `getGeoLocation` reads; an absent component is the
empty string. -/
structure GeoInformation where
  Street : String
  City : String
  Postcode : String
  Country : String
  Latitude : String
  Longitude : String
  MapType : String
  Zoom : Int
  deriving DecidableEq, Repr

/-- Modelled from the spec: type `repository.MetaData`, declared outside the
sources, with the fields the mapper and the tag index read. -/
structure MetaData where
  Language : String
  CreationDate : Time
  LastModifiedDate : Time
  ItemType : String
  Tags : List Tag
  Locations : List Location
  GeoData : GeoInformation
  deriving DecidableEq, Repr

/-- Modelled from the spec: type `view.Tag`, declared outside the sources, with the
two fields `getTags` fills. -/
structure ViewTag where
  Name : String
  AbsoluteRoute : String
  deriving DecidableEq, Repr

/-- Modelled from the spec: type `view.GeoLocation`, declared outside the sources,
with the fields `getGeoLocation` fills. -/
structure GeoLocation where
  PlaceName : String
  Address : String
  Coordinates : String
  Street : String
  City : String
  Postcode : String
  Country : String
  Latitude : String
  Longitude : String
  MapType : String
  Zoom : Int
  deriving DecidableEq, Repr

/-- Modelled from the spec: type `view.Model`, declared outside the sources, with
the fields `getModel` fills and the child list `Map` sets. `GeoLocation` is a
pointer in the source, so it is optional here. -/
inductive Model where
  | mk (Level : Int) (RelativeRoute AbsoluteRoute Title Description Content : String)
      (LanguageTag CreationDate LastModifiedDate ItemType : String)
      (Tags : List ViewTag) (Locations : List Model) (GeoLocation : Option GeoLocation)
      (Childs : List Model)

namespace Model

def Level : Model → Int
  | mk v _ _ _ _ _ _ _ _ _ _ _ _ _ => v

def RelativeRoute : Model → String
  | mk _ v _ _ _ _ _ _ _ _ _ _ _ _ => v

def AbsoluteRoute : Model → String
  | mk _ _ v _ _ _ _ _ _ _ _ _ _ _ => v

def Title : Model → String
  | mk _ _ _ v _ _ _ _ _ _ _ _ _ _ => v

def Description : Model → String
  | mk _ _ _ _ v _ _ _ _ _ _ _ _ _ => v

def Content : Model → String
  | mk _ _ _ _ _ v _ _ _ _ _ _ _ _ => v

def LanguageTag : Model → String
  | mk _ _ _ _ _ _ v _ _ _ _ _ _ _ => v

def CreationDate : Model → String
  | mk _ _ _ _ _ _ _ v _ _ _ _ _ _ => v

def LastModifiedDate : Model → String
  | mk _ _ _ _ _ _ _ _ v _ _ _ _ _ => v

/-- Field `Type` of the source (a reserved word here). -/
def ItemType : Model → String
  | mk _ _ _ _ _ _ _ _ _ v _ _ _ _ => v

def Tags : Model → List ViewTag
  | mk _ _ _ _ _ _ _ _ _ _ v _ _ _ => v

def Locations : Model → List Model
  | mk _ _ _ _ _ _ _ _ _ _ _ v _ _ => v

def GeoLocation : Model → Option Allmark.GeoLocation
  | mk _ _ _ _ _ _ _ _ _ _ _ _ v _ => v

def Childs : Model → List Model
  | mk _ _ _ _ _ _ _ _ _ _ _ _ _ v => v

/-- The assignment `model.Childs = childs`. -/
def setChilds : Model → List Model → Model
  | mk a b c d e f g h i j k l m _, childs => mk a b c d e f g h i j k l m childs

end Model

/-- Modelled from the spec: type `repository.Item`, declared outside the sources,
with the fields the mapper and the tag index read. The code handles items
through `*repository.Item`: `addr` is the address of the pointer (the identity
of the item), `Model` the back-reference `Map` assigns. -/
inductive Item where
  | mk (addr : Nat) (Level : Int) (Title Description : String) (MetaData : MetaData)
      (Childs : List Item) (Model : Option Model)

namespace Item

def addr : Item → Nat
  | mk v _ _ _ _ _ _ => v

def Level : Item → Int
  | mk _ v _ _ _ _ _ => v

def Title : Item → String
  | mk _ _ v _ _ _ _ => v

def Description : Item → String
  | mk _ _ _ v _ _ _ => v

def MetaData : Item → Allmark.MetaData
  | mk _ _ _ _ v _ _ => v

def Childs : Item → List Item
  | mk _ _ _ _ _ v _ => v

def Model : Item → Option Allmark.Model
  | mk _ _ _ _ _ _ v => v

end Item

/-- The five function parameters every function of the mapper threads through:
`itemResolver` returns no item (`nil`) for a name it cannot resolve. -/
structure Collaborators where
  itemResolver : String → Option Item
  tagPath : Tag → String
  relativePath : Item → String
  absolutePath : Item → String
  content : Item → String

/-- Functions the mapper calls that are declared outside `mapper.go`: the
package's `getTwoLetterLanguageCode` and `formatDate`, and the `%q` verb of
`fmt.Sprintf` (a quoted Go string literal). -/
structure Helpers where
  getTwoLetterLanguageCode : String → String
  formatDate : Time → String
  quote : String → String

/-! ## The mapper (`mapper/mapper.go`) -/

/-- Modelled from the spec: the item type constants of package `types`, which is
not among the sources; the spec names the closed set presentation,
repository-root, document, message, location. -/
def PresentationItemType : String := "presentation"

/-- Modelled from the spec: see `PresentationItemType`. -/
def RepositoryItemType : String := "repository-root"

/-- Modelled from the spec: see `PresentationItemType`. -/
def DocumentItemType : String := "document"

/-- Modelled from the spec: see `PresentationItemType`. -/
def MessageItemType : String := "message"

/-- Modelled from the spec: see `PresentationItemType`. -/
def LocationItemType : String := "location"

/-- The item types of the first `case` of the `switch` in `Map`. -/
def recognizedItemTypes : List String :=
  [PresentationItemType, RepositoryItemType, DocumentItemType, MessageItemType, LocationItemType]

/-- Modelled from the spec: the constructor `view.Error(title, description,
relativeRoute, absoluteRoute)` of package `view`, which is not among the sources:
the error view model carries the title, the description and the two routes, and
nothing else (no tags, no locations, no geo-view, no children). -/
def viewError (title description relativeRoute absoluteRoute : String) : Model :=
  Model.mk 0 relativeRoute absoluteRoute title description "" "" "" "" "" [] [] none []

/-- Function `getAddress`: `strings.Join` of the four components with `", "`. -/
def getAddress (geoData : GeoInformation) : String :=
  let components := [geoData.Street, geoData.Postcode, geoData.City, geoData.Country]
  String.intercalate ", " components

/-- Function `getPlaceName`. -/
def getPlaceName (item : Item) : String :=
  if item.Title = "" ∨ item.MetaData.GeoData.City = "" then
    ""
  else
    let components := [item.Title, item.MetaData.GeoData.City, item.MetaData.GeoData.Country]
    String.intercalate ", " components

/-- Function `getCoordinates`: `fmt.Sprintf("%s; %s", latitude, longitude)`. -/
def getCoordinates (geoData : GeoInformation) : String :=
  if geoData.Latitude = "" ∨ geoData.Longitude = "" then
    ""
  else
    geoData.Latitude ++ "; " ++ geoData.Longitude

/-- Function `getGeoLocation`. -/
def getGeoLocation (item : Item) : GeoLocation where
  PlaceName := getPlaceName item
  Address := getAddress item.MetaData.GeoData
  Coordinates := getCoordinates item.MetaData.GeoData
  Street := item.MetaData.GeoData.Street
  City := item.MetaData.GeoData.City
  Postcode := item.MetaData.GeoData.Postcode
  Country := item.MetaData.GeoData.Country
  Latitude := item.MetaData.GeoData.Latitude
  Longitude := item.MetaData.GeoData.Longitude
  MapType := item.MetaData.GeoData.MapType
  Zoom := item.MetaData.GeoData.Zoom

/-- Function `getTags`: one entry per tag of the metadata, appended in order. -/
def getTags (item : Item) (tagPath : Tag → String) : List ViewTag :=
  item.MetaData.Tags.foldl
    (fun tagModels tag => tagModels ++ [{ Name := tag.Name, AbsoluteRoute := tagPath tag }]) []

/-- The loop of `getLocations` over the location references, with the call
`getModel(item, ...)` of its body passed as `getModelCall`: a reference the
resolver does not resolve is skipped, a resolved one appends its view model. The
result is `none` when one of the calls does not return. -/
def getLocationsLoop (getModelCall : Item → Option Model) (itemResolver : String → Option Item) :
    List Location → List Model → Option (List Model)
  | [], locationModels => some locationModels
  | location :: rest, locationModels =>
    match itemResolver location.String with
    | some item =>
      match getModelCall item with
      | some model => getLocationsLoop getModelCall itemResolver rest (locationModels ++ [model])
      | none => none
    | none => getLocationsLoop getModelCall itemResolver rest locationModels

/-- Function `getModel`. It calls `getLocations`, which calls `getModel` on every
resolved item: `fuel` bounds the depth of these nested calls, and the result is
`none` when the bound is reached (the call does not return within it). The
child list is not set here. -/
def getModel (h : Helpers) (c : Collaborators) : Nat → Item → Option Model
  | 0, _ => none
  | fuel + 1, item =>
    match getLocationsLoop (getModel h c fuel) c.itemResolver item.MetaData.Locations [] with
    | some locations =>
      some (Model.mk
        item.Level
        (c.relativePath item)
        (c.absolutePath item)
        item.Title
        item.Description
        (c.content item)
        (h.getTwoLetterLanguageCode item.MetaData.Language)
        (h.formatDate item.MetaData.CreationDate)
        (h.formatDate item.MetaData.LastModifiedDate)
        item.MetaData.ItemType
        (getTags item c.tagPath)
        locations
        (some (getGeoLocation item))
        [])
    | none => none

/-- Function `getLocations`, called by `getModel` with one unit of fuel less. -/
def getLocations (h : Helpers) (c : Collaborators) (fuel : Nat) (locations : List Location) :
    Option (List Model) :=
  getLocationsLoop (getModel h c fuel) c.itemResolver locations []

mutual

/-- Function `Map`. The result is the returned view model together with the item
as the call leaves it: `item.Model = model` is assigned in both branches, and the
children are the ones `getSubModels` has gone through. -/
def Map (h : Helpers) (c : Collaborators) (fuel : Nat) : Item → Option (Model × Item)
  | Item.mk addr level title description metaData childs oldModel =>
    let item := Item.mk addr level title description metaData childs oldModel
    let itemType := metaData.ItemType
    if itemType ∈ recognizedItemTypes then
      match getModel h c fuel item with
      | some model =>
        match getSubModels h c fuel childs [] [] with
        | some (models, childs') =>
          let model := model.setChilds models
          some (model, Item.mk addr level title description metaData childs' (some model))
        | none => none
      | none => none
    else
      let model := viewError "Item type not recognized"
        ("There is no mapper available for items of type " ++ h.quote itemType)
        (c.relativePath item) (c.absolutePath item)
      some (model, Item.mk addr level title description metaData childs (some model))

/-- The loop of `getSubModels` over `item.Childs`: every child is mapped and its
view model appended; the children as left by these calls are collected too. -/
def getSubModels (h : Helpers) (c : Collaborators) (fuel : Nat) :
    List Item → List Model → List Item → Option (List Model × List Item)
  | [], models, done => some (models, done)
  | child :: items, models, done =>
    match Map h c fuel child with
    | some (model, child') => getSubModels h c fuel items (models ++ [model]) (done ++ [child'])
    | none => none

end

/-- The value `Map` returns, without the item it leaves behind. -/
def MapModel (h : Helpers) (c : Collaborators) (fuel : Nat) (item : Item) : Option Model :=
  (Map h c fuel item).map Prod.fst

/-- Every chain of location references that starts at `item` and is followed
through the resolver (the references of the resolved items included) has at
most `depth` items on it, `item` counted. -/
def locationDepthWithin (c : Collaborators) : Nat → Item → Bool
  | 0, _ => false
  | depth + 1, item =>
    item.MetaData.Locations.all fun location =>
      match c.itemResolver location.String with
      | some resolved => locationDepthWithin c depth resolved
      | none => true

mutual

/-- The predicate `p` holds of the item and of every item below it in the tree. -/
def Item.all (p : Item → Bool) : Item → Bool
  | Item.mk addr level title description metaData childs model =>
    p (Item.mk addr level title description metaData childs model) && Item.allOf p childs

/-- The predicate `p` holds of every item of the trees in the list. -/
def Item.allOf (p : Item → Bool) : List Item → Bool
  | [] => true
  | child :: items => Item.all p child && Item.allOf p items

end

/-! ## The tag index (`repository/tagmap.go`) -/

/-- Modelled from the spec: the collaborator type `repository.ItemList` with its
constructor `NewItemList` and its methods `Add`, `Remove` and `IsEmpty`, none of
which is among the sources. `L` is the type of the lists; the methods take the
`*Item` pointer and return their result, as the call sites of `tagmap.go` use
them (`tagmap[tag] = itemlist.Add(item)`), leaving the receiver as it was.
`contains` tells whether a list holds a pointer; it is what the properties of
the index are stated with and is not called by the code. -/
structure ItemListOps (L : Type) where
  NewItemList : Nat → L
  Add : L → Nat → L
  Remove : L → Nat → L
  IsEmpty : L → Bool
  contains : L → Nat → Bool

/-- Modelled from the spec: what the tag index expects of the item list ("create
one containing only this item", "ensure the tag's entry contains the item",
"remove the item from that tag's item list", "if the resulting list is empty");
how often `Add` stores an item it is given twice is left open. -/
structure ItemListOps.Lawful {L : Type} (ops : ItemListOps L) : Prop where
  contains_new : ∀ p q, ops.contains (ops.NewItemList p) q = true ↔ q = p
  contains_add : ∀ l p q, ops.contains (ops.Add l p) q = true ↔ (q = p ∨ ops.contains l q = true)
  contains_remove :
    ∀ l p q, ops.contains (ops.Remove l p) q = true ↔ (q ≠ p ∧ ops.contains l q = true)
  isEmpty_iff : ∀ l, ops.IsEmpty l = true ↔ ∀ q, ops.contains l q = false

/-- Modelled from the spec: the item list as a slice of item pointers, `Add`
appending, `Remove` dropping every occurrence, `IsEmpty` testing the length. -/
def sliceItemList : ItemListOps (List Nat) where
  NewItemList := fun item => [item]
  Add := fun itemlist item => itemlist ++ [item]
  Remove := fun itemlist item => itemlist.filter (fun other => other != item)
  IsEmpty := fun itemlist => itemlist.isEmpty
  contains := fun itemlist item => itemlist.contains item

/-- Type `TagMap`, a Go `map[Tag]ItemList`: the entries of the map, read and
written only through `get`, `set` and `delete`, which keep the keys distinct. -/
abbrev TagMap (L : Type) := List (Tag × L)

namespace TagMap

variable {L : Type}

/-- The read `itemlist, exists := tagmap[tag]`. -/
def get : TagMap L → Tag → Option L
  | [], _ => none
  | (key, itemlist) :: rest, tag => if key = tag then some itemlist else get rest tag

/-- The write `tagmap[tag] = itemlist`: the entry of an existing key is
replaced, a new key gets a new entry. -/
def set : TagMap L → Tag → L → TagMap L
  | [], tag, itemlist => [(tag, itemlist)]
  | (key, old) :: rest, tag, itemlist =>
    if key = tag then (key, itemlist) :: rest else (key, old) :: set rest tag itemlist

/-- The builtin `delete(tagmap, tag)`. -/
def delete : TagMap L → Tag → TagMap L
  | [], _ => []
  | (key, itemlist) :: rest, tag =>
    if key = tag then delete rest tag else (key, itemlist) :: delete rest tag

/-- The body of the loop of `TagMap.Add` for one tag of the item. -/
def addStep (ops : ItemListOps L) (item : Item) (tagmap : TagMap L) (tag : Tag) : TagMap L :=
  match tagmap.get tag with
  | some itemlist => tagmap.set tag (ops.Add itemlist item.addr)
  | none => tagmap.set tag (ops.NewItemList item.addr)

/-- Method `TagMap.Add`: the loop over the item's tags, threading the map. -/
def Add (ops : ItemListOps L) (tagmap : TagMap L) (item : Item) : TagMap L :=
  item.MetaData.Tags.foldl (addStep ops item) tagmap

/-- The body of the loop of `TagMap.Remove` for the entry `(tag, itemlist)`
produced by `range`: `IsEmpty` is called on `itemlist`, the list read from the
map before the assignment. -/
def removeStep (ops : ItemListOps L) (item : Item) (tagmap : TagMap L) (entry : Tag × L) :
    TagMap L :=
  let tag := entry.1
  let itemlist := entry.2
  let tagmap := tagmap.set tag (ops.Remove itemlist item.addr)
  if ops.IsEmpty itemlist then tagmap.delete tag else tagmap

/-- Method `TagMap.Remove`: `range tagmap` produces every entry of the map once
(the body writes and deletes only the key it is at), and the body runs on the
map as the earlier iterations left it. -/
def Remove (ops : ItemListOps L) (tagmap : TagMap L) (item : Item) : TagMap L :=
  tagmap.foldl (removeStep ops item) tagmap

end TagMap

/-- Function `NewTagMap`: the empty map. -/
def NewTagMap {L : Type} : TagMap L := []

/-- A call of `Add` or of `Remove` on the tag index. -/
inductive TagMapCall where
  | add (item : Item)
  | remove (item : Item)

/-- The map after one call. -/
def TagMap.call {L : Type} (ops : ItemListOps L) (tagmap : TagMap L) : TagMapCall → TagMap L
  | TagMapCall.add item => tagmap.Add ops item
  | TagMapCall.remove item => tagmap.Remove ops item

/-- The state reached from `NewTagMap()` by a finite sequence of calls, in order. -/
def TagMap.run {L : Type} (ops : ItemListOps L) (calls : List TagMapCall) : TagMap L :=
  calls.foldl (TagMap.call ops) NewTagMap

/-! ## Example data -/

/-- Sample helpers: the first two letters of the language, a fixed date text, and
a quoting function. -/
def exHelpers : Helpers where
  getTwoLetterLanguageCode := fun language => String.mk (language.data.take 2)
  formatDate := fun _ => "2013-08-01"
  quote := fun text => "<" ++ text ++ ">"

/-- Sample item without geo-information and with no model attached. -/
def exItem (addr : Nat) (title itemType : String) (tags : List Tag)
    (locations : List Location) (childs : List Item) : Item :=
  Item.mk addr 0 title ""
    { Language := "en", CreationDate := 0, LastModifiedDate := 0, ItemType := itemType,
      Tags := tags, Locations := locations,
      GeoData := { Street := "", City := "", Postcode := "", Country := "", Latitude := "",
                   Longitude := "", MapType := "", Zoom := 0 } }
    childs none

/-- Sample location item that declares no location reference. -/
def exGermany : Item := exItem 10 "Germany" LocationItemType [] [] []

/-- Sample location item that declares the location reference "germany". -/
def exBerlin : Item := exItem 11 "Berlin" LocationItemType [] [{ name := "germany" }] []

/-- Sample item whose location reference "loop" the resolver resolves to itself. -/
def exLoop : Item := exItem 12 "Loop" DocumentItemType [] [{ name := "loop" }] []

/-- Sample collaborators: the resolver knows "germany", "berlin" and "loop". -/
def exCollaborators : Collaborators where
  itemResolver := fun itemName =>
    if itemName = "germany" then some exGermany
    else if itemName = "berlin" then some exBerlin
    else if itemName = "loop" then some exLoop
    else none
  tagPath := fun tag => "/tags/" ++ tag.name
  relativePath := fun item => item.Title
  absolutePath := fun item => "/" ++ item.Title
  content := fun item => item.Description

/-- The geo-view of a sample item, which has no geo-information. -/
def exGeoView : GeoLocation where
  PlaceName := ""
  Address := ", , , "
  Coordinates := ""
  Street := ""
  City := ""
  Postcode := ""
  Country := ""
  Latitude := ""
  Longitude := ""
  MapType := ""
  Zoom := 0

/-- The view model `getModel` builds for a sample item under the sample
collaborators, given its location models and its child models. -/
def exModel (title itemType : String) (locations childs : List Model) : Model :=
  Model.mk 0 title ("/" ++ title) title "" "" "en" "2013-08-01" "2013-08-01" itemType []
    locations (some exGeoView) childs

/-- Sample message item, a leaf. -/
def exNote : Item := exItem 2 "Note" MessageItemType [] [] []

/-- Sample item of a type the mapper does not know, with one child. -/
def exOdd : Item := exItem 3 "Odd" "unknown-type" [] [] [exNote]

/-- Sample document with two children and two location references, the second
of which the resolver does not know. -/
def exOffice : Item :=
  exItem 1 "Office" DocumentItemType [] [{ name := "berlin" }, { name := "nowhere" }]
    [exNote, exOdd]

/-- Sample tag "go". -/
def exTagGo : Tag := { name := "go" }

/-- Sample tag "web". -/
def exTagWeb : Tag := { name := "web" }

/-- Sample item at address 20 tagged "go". -/
def exTagged : Item := exItem 20 "Tagged" DocumentItemType [exTagGo] [] []

/-- The item at address 20 after its metadata has lost every tag. -/
def exUntagged : Item := exItem 20 "Tagged" DocumentItemType [] [] []

/-- Sample item at address 21 tagged "go" and "web". -/
def exTwoTags : Item := exItem 21 "Two" DocumentItemType [exTagGo, exTagWeb] [] []

/-- Sample item at address 22 that is never added to the index. -/
def exStranger : Item := exItem 22 "Stranger" DocumentItemType [exTagWeb] [] []

/-! ## Notions the further properties are stated with -/

mutual

/-- The number of view models in the tree of a view model, counted through the
`Childs` lists (the models under `Locations` are not part of that tree). -/
def Model.nodes : Model → Nat
  | Model.mk _ _ _ _ _ _ _ _ _ _ _ _ _ childs => 1 + Model.nodesOf childs

/-- The number of view models in the trees of a list of view models. -/
def Model.nodesOf : List Model → Nat
  | [] => 0
  | model :: models => Model.nodes model + Model.nodesOf models

end

mutual

/-- The number of items of a content tree, an item of a type `Map` does not
recognize counting as a leaf whatever it has below it. -/
def Item.nodes : Item → Nat
  | Item.mk _ _ _ _ metaData childs _ =>
    if metaData.ItemType ∈ recognizedItemTypes then 1 + Item.nodesOf childs else 1

/-- The number of items of a list of content trees, counted as in `Item.nodes`. -/
def Item.nodesOf : List Item → Nat
  | [] => 0
  | child :: items => Item.nodes child + Item.nodesOf items

end

/-- The geo-information of an item that has none: every text empty, the zoom
level zero. -/
def noGeoInformation : GeoInformation where
  Street := ""
  City := ""
  Postcode := ""
  Country := ""
  Latitude := ""
  Longitude := ""
  MapType := ""
  Zoom := 0

mutual

/-- The item with the `Model` back-reference cleared on it and on every item
below it: what is left is every other field of every item of the tree. -/
def Item.eraseModel : Item → Item
  | Item.mk addr level title description metaData childs _ =>
    Item.mk addr level title description metaData (Item.eraseModelOf childs) none

/-- The trees of the list with every `Model` back-reference cleared. -/
def Item.eraseModelOf : List Item → List Item
  | [] => []
  | child :: items => Item.eraseModel child :: Item.eraseModelOf items

end

mutual

/-- The item `after` is the item `before` with the view model `model` attached:
its `Model` is `model`; when the type is recognized its children are the
children of `before` with the child models of `model` attached in the same way,
one by one; otherwise its children are the children of `before`, untouched. -/
def Item.attachedFrom : Item → Item → Allmark.Model → Prop
  | Item.mk _ _ _ _ metaData childs _, after, model =>
    after.Model = some model ∧
      if metaData.ItemType ∈ recognizedItemTypes then
        Item.attachedFromAll childs after.Childs model.Childs
      else
        after.Childs = childs

/-- The relation `Item.attachedFrom` between three lists, position by position. -/
def Item.attachedFromAll : List Item → List Item → List Allmark.Model → Prop
  | [], afters, models => afters = [] ∧ models = []
  | child :: items, afters, models =>
    match afters, models with
    | after :: afters', model :: models' =>
      Item.attachedFrom child after model ∧ Item.attachedFromAll items afters' models'
    | _, _ => False

end

/-- The results of the path and content functions do not depend on the `Model`
back-references of the item they are given. -/
def Collaborators.IgnoreModel (c : Collaborators) : Prop :=
  ∀ a b : Item, a.eraseModel = b.eraseModel →
    c.relativePath a = c.relativePath b ∧ c.absolutePath a = c.absolutePath b ∧
      c.content a = c.content b

/-- The item a call of the tag index is made with. -/
def TagMapCall.item : TagMapCall → Item
  | TagMapCall.add item => item
  | TagMapCall.remove item => item

/-- Modelled from the spec: the item list as a set-like slice of item pointers:
`Add` returns a list that already holds the item as it is. -/
def setItemList : ItemListOps (List Nat) where
  NewItemList := fun item => [item]
  Add := fun itemlist item => if itemlist.contains item then itemlist else itemlist ++ [item]
  Remove := fun itemlist item => itemlist.filter (fun other => other != item)
  IsEmpty := fun itemlist => itemlist.isEmpty
  contains := fun itemlist item => itemlist.contains item

/-- Sample item with a title and full geo-information. -/
def exHeadquarters : Item :=
  Item.mk 30 1 "Berlin HQ" ""
    { Language := "en", CreationDate := 0, LastModifiedDate := 0, ItemType := LocationItemType,
      Tags := [exTagGo, exTagWeb, exTagGo], Locations := [],
      GeoData := { Street := "", City := "Berlin", Postcode := "10115", Country := "Germany",
                   Latitude := "52.5", Longitude := "13.4", MapType := "roadmap", Zoom := 12 } }
    [] none

/-- Sample collaborators whose content function reads the `Model` back-reference
of the item: it returns the content of the attached view model when there is
one. -/
def exCachingCollaborators : Collaborators where
  itemResolver := fun _ => none
  tagPath := fun tag => "/tags/" ++ tag.name
  relativePath := fun item => item.Title
  absolutePath := fun item => "/" ++ item.Title
  content := fun item =>
    match item.Model with
    | some model => "cached " ++ model.Title
    | none => "rendered " ++ item.Title

/-- The tags the sample items of the tag index declare, by address. -/
def exTagsOf (addr : Nat) : List Tag :=
  if addr = 20 then [exTagGo] else if addr = 21 then [exTagGo, exTagWeb] else []

/-- Sample item as `exItem` builds it, with a view model attached. -/
def exItemAfter (addr : Nat) (title itemType : String) (tags : List Tag)
    (locations : List Location) (childs : List Item) (model : Model) : Item :=
  Item.mk addr 0 title ""
    { Language := "en", CreationDate := 0, LastModifiedDate := 0, ItemType := itemType,
      Tags := tags, Locations := locations,
      GeoData := { Street := "", City := "", Postcode := "", Country := "", Latitude := "",
                   Longitude := "", MapType := "", Zoom := 0 } }
    childs (some model)

/-- The view model of the sample document under the sample collaborators. -/
def exOfficeModel : Model :=
  exModel "Office" DocumentItemType
    [exModel "Berlin" LocationItemType [exModel "Germany" LocationItemType [] []] []]
    [exModel "Note" MessageItemType [] [],
     viewError "Item type not recognized"
       "There is no mapper available for items of type <unknown-type>" "Odd" "/Odd"]

/-- The sample document as `Map` leaves it: the document, its message child and
its child of unknown type carry their view models, the item below the child of
unknown type carries none. -/
def exOfficeAfter : Item :=
  exItemAfter 1 "Office" DocumentItemType [] [{ name := "berlin" }, { name := "nowhere" }]
    [exItemAfter 2 "Note" MessageItemType [] [] [] (exModel "Note" MessageItemType [] []),
     exItemAfter 3 "Odd" "unknown-type" [] [] [exNote]
       (viewError "Item type not recognized"
         "There is no mapper available for items of type <unknown-type>" "Odd" "/Odd")]
    exOfficeModel

/-- Sample document with two children, the second of which is the item whose
location reference resolves to itself. -/
def exLoopParent : Item := exItem 13 "Parent" DocumentItemType [] [] [exNote, exLoop]

/-- Sample repository root with one child, whose own location reference "loop"
resolves to an item that refers to itself. -/
def exLoopRoot : Item := exItem 14 "Root" RepositoryItemType [] [{ name := "loop" }] [exNote]

/-! ## The mapper: lemmas -/

theorem getLocationsLoop_eq_some (f : Item → Option Model) (r : String → Option Item) :
    ∀ (locations : List Location) (acc out : List Model),
      getLocationsLoop f r locations acc = some out ↔
        ∃ models, (locations.filterMap (fun location => r location.String)).map f
            = models.map some ∧ out = acc ++ models := by
  intro locations
  induction locations with
  | nil =>
    intro acc out
    simp only [getLocationsLoop, List.filterMap_nil, List.map_nil, Option.some.injEq]
    constructor
    · intro hout
      exact ⟨[], rfl, by simp [hout]⟩
    · rintro ⟨models, hmodels, hout⟩
      cases models with
      | nil => simp [hout]
      | cons m ms => simp at hmodels
  | cons location rest ih =>
    intro acc out
    cases hres : r location.String with
    | none =>
      simp only [getLocationsLoop, hres, List.filterMap_cons]
      exact ih acc out
    | some item =>
      cases hmod : f item with
      | none =>
        simp only [getLocationsLoop, hres, hmod, List.filterMap_cons, List.map_cons]
        constructor
        · intro hfalse
          cases hfalse
        · rintro ⟨models, hmodels, -⟩
          cases models with
          | nil => simp at hmodels
          | cons m ms => simp at hmodels
      | some model =>
        simp only [getLocationsLoop, hres, hmod, List.filterMap_cons, List.map_cons]
        rw [ih]
        constructor
        · rintro ⟨models, hmodels, hout⟩
          exact ⟨model :: models, by simp [hmodels], by simp [hout]⟩
        · rintro ⟨models, hmodels, hout⟩
          cases models with
          | nil => simp at hmodels
          | cons m ms =>
            simp only [List.map_cons, List.cons.injEq, Option.some.injEq] at hmodels
            obtain ⟨hm, hms⟩ := hmodels
            exact ⟨ms, hms, by simp [hout, hm]⟩

theorem getLocationsLoop_mono (f g : Item → Option Model) (r : String → Option Item)
    (hfg : ∀ item model, f item = some model → g item = some model) :
    ∀ (locations : List Location) (acc out : List Model),
      getLocationsLoop f r locations acc = some out →
        getLocationsLoop g r locations acc = some out := by
  intro locations
  induction locations with
  | nil =>
    intro acc out hout
    simpa [getLocationsLoop] using hout
  | cons location rest ih =>
    intro acc out hout
    cases hres : r location.String with
    | none =>
      simp only [getLocationsLoop, hres] at hout ⊢
      exact ih acc out hout
    | some item =>
      cases hmod : f item with
      | none => simp [getLocationsLoop, hres, hmod] at hout
      | some model =>
        simp only [getLocationsLoop, hres, hmod, hfg item model hmod] at hout ⊢
        exact ih _ out hout

theorem getModel_succ (h : Helpers) (c : Collaborators) :
    ∀ (fuel : Nat) (item : Item) (model : Model),
      getModel h c fuel item = some model → getModel h c (fuel + 1) item = some model := by
  intro fuel
  induction fuel with
  | zero =>
    intro item model hmodel
    simp [getModel] at hmodel
  | succ n ih =>
    intro item model hmodel
    rw [getModel] at hmodel
    rw [getModel]
    cases hloop : getLocationsLoop (getModel h c n) c.itemResolver item.MetaData.Locations [] with
    | none => simp [hloop] at hmodel
    | some locations =>
      rw [getLocationsLoop_mono _ _ _ ih _ _ _ hloop]
      simpa [hloop] using hmodel

theorem getModel_mono (h : Helpers) (c : Collaborators) (item : Item) (model : Model)
    (fuel more : Nat) (hle : fuel ≤ more) (hmodel : getModel h c fuel item = some model) :
    getModel h c more item = some model := by
  induction hle with
  | refl => exact hmodel
  | step _ ih => exact getModel_succ h c _ item model ih

theorem getLocations_mono (h : Helpers) (c : Collaborators) (locations : List Location)
    (models : List Model) (fuel more : Nat) (hle : fuel ≤ more)
    (hmodels : getLocations h c fuel locations = some models) :
    getLocations h c more locations = some models :=
  getLocationsLoop_mono _ _ _ (fun item model hm => getModel_mono h c item model fuel more hle hm)
    _ _ _ hmodels

theorem getModel_childs (h : Helpers) (c : Collaborators) (fuel : Nat) (item : Item)
    (model : Model) (hmodel : getModel h c fuel item = some model) : model.Childs = [] := by
  cases fuel with
  | zero => simp [getModel] at hmodel
  | succ n =>
    rw [getModel] at hmodel
    cases hloop : getLocationsLoop (getModel h c n) c.itemResolver item.MetaData.Locations [] with
    | none => simp [hloop] at hmodel
    | some locations =>
      simp only [hloop, Option.some.injEq] at hmodel
      rw [← hmodel]
      rfl

theorem getModel_locations (h : Helpers) (c : Collaborators) (fuel : Nat) (item : Item)
    (model : Model) (hmodel : getModel h c (fuel + 1) item = some model) :
    getLocations h c fuel item.MetaData.Locations = some model.Locations := by
  rw [getModel] at hmodel
  unfold getLocations
  cases hloop : getLocationsLoop (getModel h c fuel) c.itemResolver item.MetaData.Locations [] with
  | none => simp [hloop] at hmodel
  | some locations =>
    simp only [hloop, Option.some.injEq] at hmodel
    rw [← hmodel]
    rfl

theorem getSubModels_eq_some (h : Helpers) (c : Collaborators) (fuel : Nat) :
    ∀ (items : List Item) (models : List Model) (done : List Item) (out : List Model × List Item),
      getSubModels h c fuel items models done = some out ↔
        ∃ results : List (Model × Item), items.map (Map h c fuel) = results.map some ∧
          out = (models ++ results.map Prod.fst, done ++ results.map Prod.snd) := by
  intro items
  induction items with
  | nil =>
    intro models done out
    rw [getSubModels]
    constructor
    · intro hout
      exact ⟨[], rfl, by simpa using hout.symm⟩
    · rintro ⟨results, hresults, hout⟩
      cases results with
      | nil => simp [hout]
      | cons r rs => simp at hresults
  | cons child rest ih =>
    intro models done out
    rw [getSubModels]
    cases hchild : Map h c fuel child with
    | none =>
      simp only [List.map_cons, hchild]
      constructor
      · intro hfalse
        cases hfalse
      · rintro ⟨results, hresults, -⟩
        cases results with
        | nil => simp at hresults
        | cons r rs => simp at hresults
    | some result =>
      obtain ⟨model, child'⟩ := result
      simp only [List.map_cons, hchild]
      rw [ih]
      constructor
      · rintro ⟨results, hresults, hout⟩
        exact ⟨(model, child') :: results, by simp [hresults], by simp [hout]⟩
      · rintro ⟨results, hresults, hout⟩
        cases results with
        | nil => simp at hresults
        | cons r rs =>
          simp only [List.map_cons, List.cons.injEq, Option.some.injEq] at hresults
          obtain ⟨hr, hrs⟩ := hresults
          exact ⟨rs, hrs, by simp [hout, ← hr]⟩

theorem Map_of_recognized (h : Helpers) (c : Collaborators) (fuel : Nat) (item : Item)
    (hty : item.MetaData.ItemType ∈ recognizedItemTypes) (result : Model × Item) :
    Map h c fuel item = some result ↔
      ∃ model models childs', getModel h c fuel item = some model ∧
        getSubModels h c fuel item.Childs [] [] = some (models, childs') ∧
        result = (model.setChilds models,
          Item.mk item.addr item.Level item.Title item.Description item.MetaData childs'
            (some (model.setChilds models))) := by
  cases item with
  | mk addr level title description metaData childs oldModel =>
    have hty' : metaData.ItemType ∈ recognizedItemTypes := hty
    simp only [Map, hty', if_true, Item.Childs, Item.addr, Item.Level, Item.Title,
      Item.Description, Item.MetaData]
    cases hmodel : getModel h c fuel (Item.mk addr level title description metaData childs oldModel) with
    | none => simp
    | some model =>
      cases hsub : getSubModels h c fuel childs [] [] with
      | none => simp
      | some sub =>
        obtain ⟨models, childs'⟩ := sub
        simp only [Option.some.injEq, Prod.mk.injEq, exists_and_left, exists_eq_left']
        constructor
        · intro hres
          exact ⟨models, childs', ⟨rfl, rfl⟩, hres.symm⟩
        · rintro ⟨models', childs'', ⟨hm, hc⟩, hres⟩
          subst hm hc
          exact hres.symm

theorem Map_of_unrecognized (h : Helpers) (c : Collaborators) (fuel : Nat) (item : Item)
    (hty : item.MetaData.ItemType ∉ recognizedItemTypes) :
    Map h c fuel item =
      some (viewError "Item type not recognized"
          ("There is no mapper available for items of type " ++ h.quote item.MetaData.ItemType)
          (c.relativePath item) (c.absolutePath item),
        Item.mk item.addr item.Level item.Title item.Description item.MetaData item.Childs
          (some (viewError "Item type not recognized"
            ("There is no mapper available for items of type " ++ h.quote item.MetaData.ItemType)
            (c.relativePath item) (c.absolutePath item)))) := by
  cases item with
  | mk addr level title description metaData childs oldModel =>
    have hty' : metaData.ItemType ∉ recognizedItemTypes := hty
    simp only [Map, hty', if_false, Item.Childs, Item.addr, Item.Level, Item.Title,
      Item.Description, Item.MetaData]

theorem Model.setChilds_childs (model : Model) (childs : List Model) :
    (model.setChilds childs).Childs = childs := by
  cases model; rfl

theorem Model.setChilds_locations (model : Model) (childs : List Model) :
    (model.setChilds childs).Locations = model.Locations := by
  cases model; rfl

/-! ## The mapper: children, error view model and locations -/

theorem Map_childs_of_result (h : Helpers) (c : Collaborators) (fuel : Nat) (item : Item)
    (model : Model) (hty : item.MetaData.ItemType ∈ recognizedItemTypes)
    (hmap : MapModel h c fuel item = some model) :
    model.Childs.length = item.Childs.length ∧
      model.Childs.map some = item.Childs.map (MapModel h c fuel) := by
  unfold MapModel at hmap
  cases hres : Map h c fuel item with
  | none => simp [hres] at hmap
  | some result =>
    simp only [hres, Option.map_some', Option.some.injEq] at hmap
    obtain ⟨base, models, childs', -, hsub, hresult⟩ :=
      (Map_of_recognized h c fuel item hty result).mp hres
    obtain ⟨results, hresults, hout⟩ := (getSubModels_eq_some h c fuel _ _ _ _).mp hsub
    simp only [List.nil_append, Prod.mk.injEq] at hout
    have hchilds : model.Childs = results.map Prod.fst := by
      rw [← hmap, hresult, Model.setChilds_childs, hout.1]
    have hmaps : item.Childs.map (MapModel h c fuel) = (results.map Prod.fst).map some := by
      have := congrArg (List.map (Option.map Prod.fst)) hresults
      simpa [MapModel, Function.comp_def] using this
    constructor
    · rw [hchilds, List.length_map]
      have := congrArg List.length hresults
      simpa using this.symm
    · rw [hchilds, hmaps]

/-- C4: for an item whose type is not one of the five recognized types, `Map`
returns, whatever the fuel, the error view model: its title is the fixed text,
its description is the fixed sentence followed by the quoted type value, its
routes are `relativePath(item)` and `absolutePath(item)`, and it has no
children; the item's own children are left as they were (none is mapped). -/
theorem Map_unrecognized_is_error (h : Helpers) (c : Collaborators) (fuel : Nat) (item : Item)
    (hty : item.MetaData.ItemType ∉ recognizedItemTypes) :
    ∃ model item', Map h c fuel item = some (model, item') ∧
      model = viewError "Item type not recognized"
        ("There is no mapper available for items of type " ++ h.quote item.MetaData.ItemType)
        (c.relativePath item) (c.absolutePath item) ∧
      model.Title = "Item type not recognized" ∧
      model.Description =
        "There is no mapper available for items of type " ++ h.quote item.MetaData.ItemType ∧
      model.RelativeRoute = c.relativePath item ∧
      model.AbsoluteRoute = c.absolutePath item ∧
      model.Childs = [] ∧
      item'.Childs = item.Childs ∧ item'.Model = some model :=
  ⟨_, _, Map_of_unrecognized h c fuel item hty, rfl, rfl, rfl, rfl, rfl, rfl, rfl, rfl⟩

/-- Witness of C4: the sample item of type "unknown-type", which has a child. -/
theorem Map_unrecognized_is_error_witness :
    exOdd.MetaData.ItemType ∉ recognizedItemTypes ∧ exOdd.Childs.length = 1 ∧
      (MapModel exHelpers exCollaborators 0 exOdd).map
          (fun model => (model.Title, model.RelativeRoute, model.AbsoluteRoute, model.Childs.length))
        = some ("Item type not recognized", "Odd", "/Odd", 0) := by
  refine ⟨by decide, by decide, ?_⟩
  obtain ⟨model, item', hmap, hmodel, -⟩ :=
    Map_unrecognized_is_error exHelpers exCollaborators 0 exOdd (by decide)
  rw [MapModel, hmap, hmodel]
  rfl

/-- C5: `getLocations` returns a list exactly when `getModel` returns for every
item the resolver resolves, and the list then holds one view model per resolved
reference, in the order of the references: it is the list of the `getModel`
results over the references filtered by the resolver, so an unresolved reference
contributes nothing and moves nothing. -/
theorem getLocations_filtered_in_order (h : Helpers) (c : Collaborators) (fuel : Nat)
    (locations : List Location) (models : List Model) :
    getLocations h c fuel locations = some models ↔
      (locations.filterMap (fun location => c.itemResolver location.String)).map
          (getModel h c fuel) = models.map some := by
  unfold getLocations
  rw [getLocationsLoop_eq_some]
  constructor
  · rintro ⟨ms, hms, hout⟩
    rw [hms, hout, List.nil_append]
  · intro hmodels
    exact ⟨models, hmodels, by simp⟩

/-- Witness of C5: of the references "berlin", "nowhere" and "germany" the second
is unknown to the resolver; the result holds the models of the other two. -/
theorem getLocations_filtered_in_order_witness :
    getLocations exHelpers exCollaborators 2
        [{ name := "berlin" }, { name := "nowhere" }, { name := "germany" }] =
      some [exModel "Berlin" LocationItemType [exModel "Germany" LocationItemType [] []] [],
        exModel "Germany" LocationItemType [] []] :=
  (getLocations_filtered_in_order exHelpers exCollaborators 2 _ _).mpr rfl

theorem mem_map_some_of_mem {α β : Type} (f : α → Option β) :
    ∀ (xs : List α) (ys : List β), xs.map f = ys.map some →
      ∀ y ∈ ys, ∃ x ∈ xs, f x = some y := by
  intro xs
  induction xs with
  | nil =>
    intro ys hmap y hy
    cases ys with
    | nil => cases hy
    | cons z zs => simp at hmap
  | cons x rest ih =>
    intro ys hmap y hy
    cases ys with
    | nil => simp at hmap
    | cons z zs =>
      simp only [List.map_cons, List.cons.injEq] at hmap
      rcases List.mem_cons.mp hy with hyz | hyzs
      · exact ⟨x, List.mem_cons_self _ _, by rw [hmap.1, hyz]⟩
      · obtain ⟨x', hx', hfx'⟩ := ih zs hmap.2 y hyzs
        exact ⟨x', List.mem_cons_of_mem _ hx', hfx'⟩

theorem getModel_locations_resolved (h : Helpers) (c : Collaborators) (fuel : Nat) (item : Item)
    (model : Model) (hmodel : getModel h c fuel item = some model) :
    ∀ nested ∈ model.Locations, nested.Childs = [] ∧
      ∃ location ∈ item.MetaData.Locations, ∃ resolved,
        c.itemResolver location.String = some resolved ∧
        getModel h c fuel resolved = some nested ∧
        getLocations h c fuel resolved.MetaData.Locations = some nested.Locations := by
  intro nested hnested
  cases fuel with
  | zero => simp [getModel] at hmodel
  | succ n =>
    have hlocs := getModel_locations h c n item model hmodel
    unfold getLocations at hlocs
    obtain ⟨ms, hms, hout⟩ := (getLocationsLoop_eq_some _ _ _ _ _).mp hlocs
    rw [List.nil_append] at hout
    rw [← hout] at hms
    obtain ⟨resolved, hresolved, hget⟩ := mem_map_some_of_mem _ _ _ hms nested hnested
    obtain ⟨location, hlocation, hres⟩ := List.mem_filterMap.mp hresolved
    refine ⟨getModel_childs h c n resolved nested hget, location, hlocation, resolved, hres,
      getModel_succ h c n resolved nested hget, ?_⟩
    cases n with
    | zero => simp [getModel] at hget
    | succ k =>
      exact getLocations_mono h c _ _ k (k + 1 + 1) (by omega)
        (getModel_locations h c k resolved nested hget)

/-- C6 as amended: every view model in the `Locations` list of the view model
`Map` returns is the `getModel` result of an item the resolver resolves from one
of the item's location references; it has no children, and its own `Locations`
list is again the `getLocations` result of the resolved item's references, so
the expansion goes on below the first level. -/
theorem Map_locations_expanded (h : Helpers) (c : Collaborators) (fuel : Nat) (item : Item)
    (model : Model) (hmap : MapModel h c fuel item = some model) :
    ∀ nested ∈ model.Locations, nested.Childs = [] ∧
      ∃ location ∈ item.MetaData.Locations, ∃ resolved,
        c.itemResolver location.String = some resolved ∧
        getModel h c fuel resolved = some nested ∧
        getLocations h c fuel resolved.MetaData.Locations = some nested.Locations := by
  unfold MapModel at hmap
  cases hres : Map h c fuel item with
  | none => simp [hres] at hmap
  | some result =>
    simp only [hres, Option.map_some', Option.some.injEq] at hmap
    by_cases hty : item.MetaData.ItemType ∈ recognizedItemTypes
    · obtain ⟨base, models, childs', hbase, -, hresult⟩ :=
        (Map_of_recognized h c fuel item hty result).mp hres
      have hlocs : model.Locations = base.Locations := by
        rw [← hmap, hresult, Model.setChilds_locations]
      rw [hlocs]
      exact getModel_locations_resolved h c fuel item base hbase
    · rw [Map_of_unrecognized h c fuel item hty] at hres
      have hmodel : model.Locations = [] := by
        rw [← hmap, ← Option.some.inj hres]
        rfl
      rw [hmodel]
      intro nested hnested
      cases hnested

/-- Witness of C6 as amended: the sample document refers to "berlin"; the model
of Berlin in its `Locations` has no children and carries the model of Germany in
its own `Locations`. -/
theorem Map_locations_expanded_witness :
    MapModel exHelpers exCollaborators 3 exOffice =
        some (exModel "Office" DocumentItemType
          [exModel "Berlin" LocationItemType [exModel "Germany" LocationItemType [] []] []]
          [exModel "Note" MessageItemType [] [],
           viewError "Item type not recognized"
             "There is no mapper available for items of type <unknown-type>" "Odd" "/Odd"]) ∧
      (exModel "Berlin" LocationItemType [exModel "Germany" LocationItemType [] []] []).Childs
        = [] :=
  ⟨rfl, (Map_locations_expanded exHelpers exCollaborators 3 exOffice _ rfl
    (exModel "Berlin" LocationItemType [exModel "Germany" LocationItemType [] []] [])
    (List.mem_singleton.mpr rfl)).1⟩

/-- Counterexample to C6: the model of Berlin in the `Locations` of the sample
document's view model has a non-empty `Locations` list of its own, holding the
model of Germany, which only Berlin refers to. -/
theorem Map_locations_one_level_counterexample :
    (MapModel exHelpers exCollaborators 3 exOffice).map
        (fun model => model.Locations.map
          (fun nested => (nested.Title, nested.Locations.map Model.Title)))
      = some [("Berlin", ["Germany"])] ∧
    exOffice.MetaData.Locations = [{ name := "berlin" }, { name := "nowhere" }] := by
  decide

theorem getLocationsLoop_isSome (f : Item → Option Model) (r : String → Option Item) :
    ∀ (locations : List Location) (acc : List Model),
      (∀ location ∈ locations, ∀ resolved, r location.String = some resolved →
        ∃ model, f resolved = some model) →
      ∃ out, getLocationsLoop f r locations acc = some out := by
  intro locations
  induction locations with
  | nil =>
    intro acc _
    exact ⟨acc, rfl⟩
  | cons location rest ih =>
    intro acc hall
    have hrest : ∀ l ∈ rest, ∀ resolved, r l.String = some resolved →
        ∃ model, f resolved = some model :=
      fun l hl => hall l (List.mem_cons_of_mem _ hl)
    cases hres : r location.String with
    | none =>
      simp only [getLocationsLoop, hres]
      exact ih acc hrest
    | some item =>
      obtain ⟨model, hmodel⟩ := hall location (List.mem_cons_self _ _) item hres
      simp only [getLocationsLoop, hres, hmodel]
      exact ih _ hrest

theorem getModel_of_locationDepthWithin (h : Helpers) (c : Collaborators) :
    ∀ (depth : Nat) (item : Item), locationDepthWithin c depth item = true →
      ∃ model, getModel h c depth item = some model := by
  intro depth
  induction depth with
  | zero =>
    intro item hwithin
    simp [locationDepthWithin] at hwithin
  | succ n ih =>
    intro item hwithin
    rw [locationDepthWithin, List.all_eq_true] at hwithin
    have hall : ∀ location ∈ item.MetaData.Locations, ∀ resolved,
        c.itemResolver location.String = some resolved →
        ∃ model, getModel h c n resolved = some model := by
      intro location hlocation resolved hres
      have := hwithin location hlocation
      rw [hres] at this
      exact ih resolved this
    obtain ⟨out, hout⟩ := getLocationsLoop_isSome (getModel h c n) c.itemResolver _ [] hall
    rw [getModel, hout]
    exact ⟨_, rfl⟩

theorem Item.all_self (p : Item → Bool) (item : Item) (hall : Item.all p item = true) :
    p item = true := by
  cases item with
  | mk addr level title description metaData childs model =>
    rw [Item.all, Bool.and_eq_true] at hall
    exact hall.1

theorem Item.all_childs (p : Item → Bool) (item : Item) (hall : Item.all p item = true) :
    Item.allOf p item.Childs = true := by
  cases item with
  | mk addr level title description metaData childs model =>
    rw [Item.all, Bool.and_eq_true] at hall
    exact hall.2

mutual

theorem Map_returns_of_all (h : Helpers) (c : Collaborators) (depth : Nat) :
    ∀ item : Item, Item.all (locationDepthWithin c depth) item = true →
      ∃ result, Map h c depth item = some result
  | Item.mk addr level title description metaData childs oldModel, hall => by
    by_cases hty : metaData.ItemType ∈ recognizedItemTypes
    · obtain ⟨model, hmodel⟩ := getModel_of_locationDepthWithin h c depth _ (Item.all_self _ _ hall)
      obtain ⟨out, hout⟩ :=
        getSubModels_returns_of_all h c depth childs [] [] (Item.all_childs _ _ hall)
      exact ⟨_, (Map_of_recognized h c depth
        (Item.mk addr level title description metaData childs oldModel) hty _).mpr
        ⟨model, out.1, out.2, hmodel, hout, rfl⟩⟩
    · exact ⟨_, Map_of_unrecognized h c depth
        (Item.mk addr level title description metaData childs oldModel) hty⟩

theorem getSubModels_returns_of_all (h : Helpers) (c : Collaborators) (depth : Nat) :
    ∀ (items : List Item) (models : List Model) (done : List Item),
      Item.allOf (locationDepthWithin c depth) items = true →
      ∃ out, getSubModels h c depth items models done = some out
  | [], models, done, _ => ⟨(models, done), by rw [getSubModels]⟩
  | child :: items, models, done, hall => by
    rw [Item.allOf, Bool.and_eq_true] at hall
    obtain ⟨result, hresult⟩ := Map_returns_of_all h c depth child hall.1
    obtain ⟨out, hout⟩ :=
      getSubModels_returns_of_all h c depth items (models ++ [result.1]) (done ++ [result.2]) hall.2
    exact ⟨out, by rw [getSubModels, hresult]; exact hout⟩

end

theorem getModel_exLoop (fuel : Nat) : getModel exHelpers exCollaborators fuel exLoop = none := by
  induction fuel with
  | zero => rfl
  | succ n ih =>
    have hlocations : exLoop.MetaData.Locations = [{ name := "loop" }] := rfl
    have hres : exCollaborators.itemResolver (Location.String { name := "loop" }) = some exLoop :=
      rfl
    rw [getModel, hlocations]
    simp only [getLocationsLoop, hres, ih]

/-- C7 as amended: `Map` returns a view model for every content tree and
resolver for which the chains of location references followed through the
resolver from the items of the tree have at most `depth` items; that many
nested `getModel` calls suffice whatever the depth of the tree. -/
theorem Map_returns_of_bounded_locations (h : Helpers) (c : Collaborators) (depth : Nat)
    (item : Item) (hbound : Item.all (locationDepthWithin c depth) item = true) :
    ∃ model, MapModel h c depth item = some model := by
  obtain ⟨result, hresult⟩ := Map_returns_of_all h c depth item hbound
  exact ⟨result.1, by rw [MapModel, hresult]; rfl⟩

/-- Witness of C7 as amended: from the items of the sample tree the longest
chain of references is Office, Berlin, Germany. -/
theorem Map_returns_of_bounded_locations_witness :
    Item.all (locationDepthWithin exCollaborators 3) exOffice = true ∧
      ∃ model, MapModel exHelpers exCollaborators 3 exOffice = some model :=
  ⟨by decide, Map_returns_of_bounded_locations exHelpers exCollaborators 3 exOffice (by decide)⟩

/-- Counterexample to C7: the sample item whose location reference "loop" the
resolver resolves to the item itself is a tree of one node, and `Map` returns no
view model for it however many nested calls are allowed. -/
theorem Map_self_reference_counterexample :
    exLoop.Childs = [] ∧
      exCollaborators.itemResolver (Location.String { name := "loop" }) = some exLoop ∧
      ¬ ∃ fuel model, MapModel exHelpers exCollaborators fuel exLoop = some model := by
  refine ⟨rfl, rfl, ?_⟩
  rintro ⟨fuel, model, hmodel⟩
  unfold MapModel at hmodel
  cases hres : Map exHelpers exCollaborators fuel exLoop with
  | none => simp [hres] at hmodel
  | some result =>
    obtain ⟨base, -, -, hbase, -⟩ :=
      (Map_of_recognized exHelpers exCollaborators fuel exLoop (by decide) result).mp hres
    rw [getModel_exLoop] at hbase
    cases hbase

/-! ## The tag index: lemmas -/

namespace TagMap

variable {L : Type}

theorem get_set_self (tagmap : TagMap L) (tag : Tag) (itemlist : L) :
    (tagmap.set tag itemlist).get tag = some itemlist := by
  induction tagmap with
  | nil => simp [set, get]
  | cons entry rest ih =>
    obtain ⟨key, old⟩ := entry
    by_cases hkey : key = tag
    · simp [set, get, hkey]
    · simp [set, get, hkey, ih]

theorem get_set_ne (tagmap : TagMap L) (tag other : Tag) (itemlist : L) (hne : other ≠ tag) :
    (tagmap.set tag itemlist).get other = tagmap.get other := by
  induction tagmap with
  | nil => simp [set, get, Ne.symm hne]
  | cons entry rest ih =>
    obtain ⟨key, old⟩ := entry
    by_cases hkey : key = tag
    · subst hkey
      simp [set, get, Ne.symm hne]
    · by_cases hother : key = other
      · subst hother
        simp [set, get, hkey]
      · simp [set, get, hkey, hother, ih]

theorem get_delete_self (tagmap : TagMap L) (tag : Tag) : (tagmap.delete tag).get tag = none := by
  induction tagmap with
  | nil => rfl
  | cons entry rest ih =>
    obtain ⟨key, old⟩ := entry
    by_cases hkey : key = tag
    · simp [delete, hkey, ih]
    · simp [delete, get, hkey, ih]

theorem get_delete_ne (tagmap : TagMap L) (tag other : Tag) (hne : other ≠ tag) :
    (tagmap.delete tag).get other = tagmap.get other := by
  induction tagmap with
  | nil => rfl
  | cons entry rest ih =>
    obtain ⟨key, old⟩ := entry
    by_cases hkey : key = tag
    · subst hkey
      simp [delete, get, Ne.symm hne, ih]
    · by_cases hother : key = other
      · subst hother
        simp [delete, get, hkey]
      · simp [delete, get, hkey, hother, ih]

theorem mem_of_get (tagmap : TagMap L) (tag : Tag) (itemlist : L)
    (hget : tagmap.get tag = some itemlist) : (tag, itemlist) ∈ tagmap := by
  induction tagmap with
  | nil => simp [get] at hget
  | cons entry rest ih =>
    obtain ⟨key, old⟩ := entry
    by_cases hkey : key = tag
    · simp only [get, hkey, if_true, Option.some.injEq] at hget
      simp [hkey, hget]
    · simp only [get, hkey, if_false] at hget
      exact List.mem_cons_of_mem _ (ih hget)


theorem get_addStep_ne (ops : ItemListOps L) (item : Item) (tagmap : TagMap L) (tag other : Tag)
    (hne : other ≠ tag) : (addStep ops item tagmap tag).get other = tagmap.get other := by
  unfold addStep
  cases tagmap.get tag with
  | none => exact get_set_ne _ _ _ _ hne
  | some itemlist => exact get_set_ne _ _ _ _ hne

theorem get_addStep_self (ops : ItemListOps L) (item : Item) (tagmap : TagMap L) (tag : Tag) :
    (addStep ops item tagmap tag).get tag =
      some (match tagmap.get tag with
        | some itemlist => ops.Add itemlist item.addr
        | none => ops.NewItemList item.addr) := by
  unfold addStep
  cases tagmap.get tag with
  | none => exact get_set_self _ _ _
  | some itemlist => exact get_set_self _ _ _

theorem get_foldl_addStep_of_not_mem (ops : ItemListOps L) (item : Item) (other : Tag) :
    ∀ (tags : List Tag) (tagmap : TagMap L), other ∉ tags →
      (tags.foldl (addStep ops item) tagmap).get other = tagmap.get other := by
  intro tags
  induction tags with
  | nil => intro tagmap _; rfl
  | cons tag rest ih =>
    intro tagmap hnot
    rw [List.foldl_cons, ih _ (fun hmem => hnot (List.mem_cons_of_mem _ hmem))]
    exact get_addStep_ne ops item tagmap tag other
      (fun heq => hnot (heq ▸ List.mem_cons_self _ _))

theorem foldl_addStep_keeps (ops : ItemListOps L) (hops : ops.Lawful) (item : Item) (other : Tag) :
    ∀ (tags : List Tag) (tagmap : TagMap L),
      (∃ itemlist, tagmap.get other = some itemlist ∧ ops.contains itemlist item.addr = true) →
      ∃ itemlist, (tags.foldl (addStep ops item) tagmap).get other = some itemlist ∧
        ops.contains itemlist item.addr = true := by
  intro tags
  induction tags with
  | nil => intro tagmap hhas; exact hhas
  | cons tag rest ih =>
    intro tagmap hhas
    rw [List.foldl_cons]
    apply ih
    obtain ⟨itemlist, hget, hcontains⟩ := hhas
    by_cases heq : other = tag
    · subst heq
      refine ⟨_, get_addStep_self ops item tagmap other, ?_⟩
      rw [hget]
      exact (hops.contains_add _ _ _).mpr (Or.inl rfl)
    · exact ⟨itemlist, by rw [get_addStep_ne ops item tagmap tag other heq, hget], hcontains⟩

theorem foldl_addStep_adds (ops : ItemListOps L) (hops : ops.Lawful) (item : Item) (tag : Tag) :
    ∀ (tags : List Tag) (tagmap : TagMap L), tag ∈ tags →
      ∃ itemlist, (tags.foldl (addStep ops item) tagmap).get tag = some itemlist ∧
        ops.contains itemlist item.addr = true := by
  intro tags
  induction tags with
  | nil => intro tagmap hmem; cases hmem
  | cons first rest ih =>
    intro tagmap hmem
    rw [List.foldl_cons]
    by_cases heq : tag = first
    · subst heq
      apply foldl_addStep_keeps ops hops item tag rest
      refine ⟨_, get_addStep_self ops item tagmap tag, ?_⟩
      cases tagmap.get tag with
      | none => exact (hops.contains_new _ _).mpr rfl
      | some itemlist => exact (hops.contains_add _ _ _).mpr (Or.inl rfl)
    · rcases List.mem_cons.mp hmem with hfirst | hrest
      · exact absurd hfirst heq
      · exact ih _ hrest

theorem foldl_addStep_new (ops : ItemListOps L) (item : Item) (tag : Tag) :
    ∀ (tags : List Tag) (tagmap : TagMap L), tags.count tag = 1 → tagmap.get tag = none →
      (tags.foldl (addStep ops item) tagmap).get tag = some (ops.NewItemList item.addr) := by
  intro tags
  induction tags with
  | nil => intro tagmap hcount; simp at hcount
  | cons first rest ih =>
    intro tagmap hcount hnone
    rw [List.foldl_cons]
    by_cases heq : first = tag
    · subst heq
      have hrest : first ∉ rest := by
        rw [List.count_cons_self] at hcount
        exact List.count_eq_zero.mp (by omega)
      rw [get_foldl_addStep_of_not_mem ops item first rest _ hrest,
        get_addStep_self, hnone]
    · have hcount' : rest.count tag = 1 := by
        rw [List.count_cons_of_ne (Ne.symm heq)] at hcount
        exact hcount
      apply ih _ hcount'
      rw [get_addStep_ne ops item tagmap first tag (Ne.symm heq), hnone]

theorem get_removeStep_ne (ops : ItemListOps L) (item : Item) (tagmap : TagMap L)
    (entry : Tag × L) (other : Tag) (hne : other ≠ entry.1) :
    (removeStep ops item tagmap entry).get other = tagmap.get other := by
  unfold removeStep
  by_cases hempty : ops.IsEmpty entry.2 = true
  · simp only [hempty, if_true]
    rw [get_delete_ne _ _ _ hne, get_set_ne _ _ _ _ hne]
  · simp only [hempty]
    exact get_set_ne _ _ _ _ hne

theorem get_removeStep_self (ops : ItemListOps L) (item : Item) (tagmap : TagMap L)
    (entry : Tag × L) :
    (removeStep ops item tagmap entry).get entry.1 =
      if ops.IsEmpty entry.2 = true then none else some (ops.Remove entry.2 item.addr) := by
  unfold removeStep
  by_cases hempty : ops.IsEmpty entry.2 = true
  · simp only [hempty, if_true]
    exact get_delete_self _ _
  · simp only [hempty]
    exact get_set_self _ _ _

theorem get_foldl_removeStep (ops : ItemListOps L) (item : Item) (tag : Tag) :
    ∀ (entries : List (Tag × L)) (tagmap : TagMap L) (itemlist : L),
      (entries.foldl (removeStep ops item) tagmap).get tag = some itemlist →
      (∃ old, (tag, old) ∈ entries ∧ itemlist = ops.Remove old item.addr) ∨
        ((∀ old, (tag, old) ∉ entries) ∧ tagmap.get tag = some itemlist) := by
  intro entries
  induction entries with
  | nil =>
    intro tagmap itemlist hget
    exact Or.inr ⟨fun old hold => (List.not_mem_nil _ hold).elim, hget⟩
  | cons entry rest ih =>
    intro tagmap itemlist hget
    rw [List.foldl_cons] at hget
    rcases ih _ _ hget with ⟨old, hold, hlist⟩ | ⟨hnot, hstep⟩
    · exact Or.inl ⟨old, List.mem_cons_of_mem _ hold, hlist⟩
    · by_cases heq : tag = entry.1
      · subst heq
        rw [get_removeStep_self] at hstep
        by_cases hempty : ops.IsEmpty entry.2 = true
        · rw [if_pos hempty] at hstep
          cases hstep
        · rw [if_neg hempty] at hstep
          exact Or.inl ⟨entry.2, List.mem_cons_self _ _, (Option.some.inj hstep).symm⟩
      · rw [get_removeStep_ne ops item tagmap entry tag heq] at hstep
        refine Or.inr ⟨fun old hold => ?_, hstep⟩
        rcases List.mem_cons.mp hold with hfirst | hrest
        · exact heq (congrArg Prod.fst hfirst)
        · exact hnot old hrest

theorem get_Remove (ops : ItemListOps L) (tagmap : TagMap L) (item : Item) (tag : Tag)
    (itemlist : L) (hget : (tagmap.Remove ops item).get tag = some itemlist) :
    ∃ old, (tag, old) ∈ tagmap ∧ itemlist = ops.Remove old item.addr := by
  rcases get_foldl_removeStep ops item tag tagmap tagmap itemlist hget with
    hremoved | ⟨hnot, hsame⟩
  · exact hremoved
  · exact absurd (mem_of_get tagmap tag itemlist hsame) (hnot itemlist)

theorem keys_set (tagmap : TagMap L) (tag : Tag) (itemlist : L) :
    (tagmap.set tag itemlist).map Prod.fst =
      if tag ∈ tagmap.map Prod.fst then tagmap.map Prod.fst else tagmap.map Prod.fst ++ [tag] := by
  induction tagmap with
  | nil => simp [set]
  | cons entry rest ih =>
    obtain ⟨key, old⟩ := entry
    by_cases hkey : key = tag
    · subst hkey
      simp [set]
    · have hne : ¬ tag = key := fun heq => hkey heq.symm
      by_cases hmem : tag ∈ rest.map Prod.fst
      · rw [if_pos hmem] at ih
        have hmem' : tag ∈ ((key, old) :: rest).map Prod.fst := by
          rw [List.map_cons]
          exact List.mem_cons_of_mem _ hmem
        rw [if_pos hmem']
        simp [set, hkey, ih]
      · rw [if_neg hmem] at ih
        have hmem' : tag ∉ ((key, old) :: rest).map Prod.fst := by
          rw [List.map_cons]
          intro hin
          rcases List.mem_cons.mp hin with hfirst | hrest
          · exact hne hfirst
          · exact hmem hrest
        rw [if_neg hmem']
        simp [set, hkey, ih]

theorem keys_delete (tagmap : TagMap L) (tag : Tag) :
    (tagmap.delete tag).map Prod.fst = (tagmap.map Prod.fst).filter (fun key => key ≠ tag) := by
  induction tagmap with
  | nil => rfl
  | cons entry rest ih =>
    obtain ⟨key, old⟩ := entry
    by_cases hkey : key = tag
    · simp [delete, hkey, ih]
    · simp [delete, hkey, ih]

theorem nodup_set (tagmap : TagMap L) (tag : Tag) (itemlist : L)
    (hnodup : (tagmap.map Prod.fst).Nodup) : ((tagmap.set tag itemlist).map Prod.fst).Nodup := by
  rw [keys_set]
  by_cases hmem : tag ∈ tagmap.map Prod.fst
  · rw [if_pos hmem]
    exact hnodup
  · rw [if_neg hmem]
    exact List.Nodup.append hnodup (List.nodup_singleton tag)
      (by simpa [List.disjoint_singleton] using hmem)

theorem nodup_delete (tagmap : TagMap L) (tag : Tag)
    (hnodup : (tagmap.map Prod.fst).Nodup) : ((tagmap.delete tag).map Prod.fst).Nodup := by
  rw [keys_delete]
  exact hnodup.filter _

theorem nodup_Add (ops : ItemListOps L) (tagmap : TagMap L) (item : Item)
    (hnodup : (tagmap.map Prod.fst).Nodup) : ((tagmap.Add ops item).map Prod.fst).Nodup := by
  unfold Add
  generalize item.MetaData.Tags = tags
  induction tags generalizing tagmap with
  | nil => exact hnodup
  | cons tag rest ih =>
    rw [List.foldl_cons]
    apply ih
    unfold addStep
    cases tagmap.get tag with
    | none => exact nodup_set _ _ _ hnodup
    | some itemlist => exact nodup_set _ _ _ hnodup

theorem nodup_foldl_removeStep (ops : ItemListOps L) (item : Item) :
    ∀ (entries : List (Tag × L)) (tagmap : TagMap L), (tagmap.map Prod.fst).Nodup →
      ((entries.foldl (removeStep ops item) tagmap).map Prod.fst).Nodup := by
  intro entries
  induction entries with
  | nil => intro tagmap hnodup; exact hnodup
  | cons entry rest ih =>
    intro tagmap hnodup
    rw [List.foldl_cons]
    apply ih
    unfold removeStep
    by_cases hempty : ops.IsEmpty entry.2 = true
    · simp only [hempty, if_true]
      exact nodup_delete _ _ (nodup_set _ _ _ hnodup)
    · simp only [hempty]
      exact nodup_set _ _ _ hnodup

theorem nodup_run (ops : ItemListOps L) (calls : List TagMapCall) :
    ((TagMap.run ops calls).map Prod.fst).Nodup := by
  unfold run
  have hstart : ((NewTagMap : TagMap L).map Prod.fst).Nodup := List.nodup_nil
  generalize (NewTagMap : TagMap L) = tagmap at hstart
  induction calls generalizing tagmap with
  | nil => exact hstart
  | cons first rest ih =>
    rw [List.foldl_cons]
    apply ih
    cases first with
    | add item => exact nodup_Add ops tagmap item hstart
    | remove item => exact nodup_foldl_removeStep ops item tagmap tagmap hstart

theorem get_eq_none_of_not_mem (tagmap : TagMap L) (tag : Tag)
    (hnot : tag ∉ tagmap.map Prod.fst) : tagmap.get tag = none := by
  cases hget : tagmap.get tag with
  | none => rfl
  | some itemlist =>
    exact absurd (List.mem_map_of_mem Prod.fst (mem_of_get tagmap tag itemlist hget)) hnot

theorem get_foldl_removeStep_of_nodup (ops : ItemListOps L) (item : Item) (tag : Tag) :
    ∀ (entries tagmap : TagMap L), (entries.map Prod.fst).Nodup →
      (entries.foldl (removeStep ops item) tagmap).get tag =
        match entries.get tag with
        | some itemlist =>
          if ops.IsEmpty itemlist = true then none else some (ops.Remove itemlist item.addr)
        | none => tagmap.get tag := by
  intro entries
  induction entries with
  | nil => intro tagmap _; rfl
  | cons entry rest ih =>
    intro tagmap hnodup
    obtain ⟨key, old⟩ := entry
    rw [List.map_cons, List.nodup_cons] at hnodup
    rw [List.foldl_cons, ih _ hnodup.2]
    by_cases hkey : key = tag
    · subst hkey
      rw [get_eq_none_of_not_mem rest key hnodup.1]
      simp only [get, if_true]
      exact get_removeStep_self ops item tagmap (key, old)
    · simp only [get, hkey, if_false]
      cases TagMap.get rest tag with
      | some itemlist => rfl
      | none => exact get_removeStep_ne ops item tagmap (key, old) tag (fun heq => hkey heq.symm)

theorem get_Remove_of_nodup (ops : ItemListOps L) (tagmap : TagMap L) (item : Item) (tag : Tag)
    (hnodup : (tagmap.map Prod.fst).Nodup) :
    (tagmap.Remove ops item).get tag =
      match tagmap.get tag with
      | some itemlist =>
        if ops.IsEmpty itemlist = true then none else some (ops.Remove itemlist item.addr)
      | none => none := by
  rw [Remove, get_foldl_removeStep_of_nodup ops item tag tagmap tagmap hnodup]
  cases tagmap.get tag with
  | some itemlist => rfl
  | none => rfl

end TagMap

theorem sliceItemList_lawful : sliceItemList.Lawful where
  contains_new := by
    intro p q
    simp [sliceItemList]
  contains_add := by
    intro l p q
    simp [sliceItemList, or_comm]
  contains_remove := by
    intro l p q
    simp [sliceItemList, and_comm]
  isEmpty_iff := by
    intro l
    cases l with
    | nil => simp [sliceItemList]
    | cons first rest =>
      simp only [sliceItemList, List.isEmpty_cons, Bool.false_eq_true, false_iff, not_forall]
      exact ⟨first, by simp⟩


/-! ## The tag index: what `Add` and `Remove` leave in the map -/

/-- C2: evaluation of the code on `NewTagMap()`, `Add(item)`, `Remove(item)` for
an item tagged "go": in the state reached, "go" is still a key of the map and
the list stored under it is empty, because `Remove` tests the list it read
before the removal. -/
theorem run_add_remove_leaves_empty_list :
    (TagMap.run sliceItemList [TagMapCall.add exTagged, TagMapCall.remove exTagged]).get exTagGo
        = some [] ∧
      sliceItemList.IsEmpty ([] : List Nat) = true := by
  decide

/-- C3: evaluation of the code on the empty map: after `Add(item)` and
`Remove(item)` for an item tagged "go" and "web" the map is not the empty map;
both tags are keys, each with the empty list. -/
theorem Add_Remove_from_empty_not_empty :
    (TagMap.Add sliceItemList NewTagMap exTwoTags).Remove sliceItemList exTwoTags
        = [(exTagGo, []), (exTagWeb, [])] ∧
      (TagMap.Add sliceItemList NewTagMap exTwoTags).Remove sliceItemList exTwoTags
        ≠ NewTagMap := by
  decide

/-- C8: after `Add(item)` every tag of the item's metadata is a key of the map
and the list under it contains the item; a tag that had no entry before the call
and occurs once among the item's tags has the list `NewItemList(item)`, which
contains this item and nothing else. -/
theorem Add_indexes_every_tag {L : Type} (ops : ItemListOps L) (hops : ops.Lawful)
    (tagmap : TagMap L) (item : Item) (tag : Tag) (htag : tag ∈ item.MetaData.Tags) :
    (∃ itemlist, (tagmap.Add ops item).get tag = some itemlist ∧
        ops.contains itemlist item.addr = true) ∧
      (tagmap.get tag = none → item.MetaData.Tags.count tag = 1 →
        (tagmap.Add ops item).get tag = some (ops.NewItemList item.addr) ∧
          ∀ other, ops.contains (ops.NewItemList item.addr) other = true ↔ other = item.addr) :=
  ⟨TagMap.foldl_addStep_adds ops hops item tag _ tagmap htag,
    fun hnone hcount =>
      ⟨TagMap.foldl_addStep_new ops item tag _ tagmap hcount hnone, hops.contains_new item.addr⟩⟩

/-- Witness of C8: the item tagged "go" and "web" is added to a map that has the
key "go" only; it joins the list under "go" and gets a list of its own under
"web". -/
theorem Add_indexes_every_tag_witness :
    sliceItemList.Lawful ∧ exTagWeb ∈ exTwoTags.MetaData.Tags ∧
      (TagMap.Add sliceItemList NewTagMap exTagged).get exTagWeb = none ∧
      exTwoTags.MetaData.Tags.count exTagWeb = 1 ∧
      ((TagMap.Add sliceItemList NewTagMap exTagged).Add sliceItemList exTwoTags).get exTagWeb
        = some [21] ∧
      ((TagMap.Add sliceItemList NewTagMap exTagged).Add sliceItemList exTwoTags).get exTagGo
        = some [20, 21] :=
  ⟨sliceItemList_lawful, by decide, by decide, by decide,
    ((Add_indexes_every_tag sliceItemList sliceItemList_lawful
      (TagMap.Add sliceItemList NewTagMap exTagged) exTwoTags exTagWeb (by decide)).2
        (by decide) (by decide)).1,
    by decide⟩

/-- C9: after `Remove(item)` no list stored under any key of the map contains
the item, whatever tags the item's metadata lists at the time of the call. -/
theorem Remove_clears_every_list {L : Type} (ops : ItemListOps L) (hops : ops.Lawful)
    (tagmap : TagMap L) (item : Item) (tag : Tag) (itemlist : L)
    (hget : (tagmap.Remove ops item).get tag = some itemlist) :
    ops.contains itemlist item.addr = false := by
  obtain ⟨old, -, hlist⟩ := TagMap.get_Remove ops tagmap item tag itemlist hget
  cases hcontains : ops.contains itemlist item.addr with
  | false => rfl
  | true =>
    rw [hlist] at hcontains
    exact absurd rfl ((hops.contains_remove old item.addr item.addr).mp hcontains).1

/-- Witness of C9: the item at address 20 was indexed under "go" together with
the item at address 21; it is removed after its metadata has lost the tag. -/
theorem Remove_clears_every_list_witness :
    sliceItemList.Lawful ∧ exUntagged.MetaData.Tags = [] ∧
      ((TagMap.run sliceItemList [TagMapCall.add exTagged, TagMapCall.add exTwoTags]).Remove
        sliceItemList exUntagged).get exTagGo = some [21] ∧
      sliceItemList.contains [21] exUntagged.addr = false :=
  ⟨sliceItemList_lawful, rfl, by decide,
    Remove_clears_every_list sliceItemList sliceItemList_lawful
      (TagMap.run sliceItemList [TagMapCall.add exTagged, TagMapCall.add exTwoTags])
      exUntagged exTagGo [21] (by decide)⟩

/-- C10: evaluation of the code on the state reached by `Add(item)` and
`Remove(item)` for an item tagged "go": no list of that map contains the item at
address 22, and yet `Remove` of that item deletes the key "go", which was a key
before the call. -/
theorem Remove_of_stranger_deletes_key :
    (∀ entry ∈ TagMap.run sliceItemList [TagMapCall.add exTagged, TagMapCall.remove exTagged],
        sliceItemList.contains entry.2 exStranger.addr = false) ∧
      (TagMap.run sliceItemList [TagMapCall.add exTagged, TagMapCall.remove exTagged]).get exTagGo
        = some [] ∧
      ((TagMap.run sliceItemList [TagMapCall.add exTagged, TagMapCall.remove exTagged]).Remove
        sliceItemList exStranger).get exTagGo = none := by
  decide

/-! ## The mapper: node count, geo-view and tags -/

theorem Model.nodes_setChilds (model : Model) (childs : List Model) :
    (model.setChilds childs).nodes = 1 + Model.nodesOf childs := by
  cases model
  simp [Model.setChilds, Model.nodes]

theorem Model.nodesOf_append (xs ys : List Model) :
    Model.nodesOf (xs ++ ys) = Model.nodesOf xs + Model.nodesOf ys := by
  induction xs with
  | nil => simp [Model.nodesOf]
  | cons x rest ih => simp [Model.nodesOf, ih, Nat.add_assoc]

mutual

theorem Map_nodes (h : Helpers) (c : Collaborators) (fuel : Nat) :
    ∀ (item : Item) (result : Model × Item), Map h c fuel item = some result →
      result.1.nodes = item.nodes
  | Item.mk addr level title description metaData childs oldModel, result, hmap => by
    by_cases hty : metaData.ItemType ∈ recognizedItemTypes
    · obtain ⟨base, models, childs', -, hsub, hresult⟩ :=
        (Map_of_recognized h c fuel
          (Item.mk addr level title description metaData childs oldModel) hty result).mp hmap
      have hcount := getSubModels_nodes h c fuel childs [] [] (models, childs') hsub
      rw [hresult, Model.nodes_setChilds, Item.nodes, if_pos hty]
      simpa [Model.nodesOf] using hcount
    · rw [Map_of_unrecognized h c fuel
        (Item.mk addr level title description metaData childs oldModel) hty] at hmap
      rw [← Option.some.inj hmap, Item.nodes, if_neg hty]
      rfl

theorem getSubModels_nodes (h : Helpers) (c : Collaborators) (fuel : Nat) :
    ∀ (items : List Item) (models : List Model) (done : List Item)
      (out : List Model × List Item), getSubModels h c fuel items models done = some out →
      Model.nodesOf out.1 = Model.nodesOf models + Item.nodesOf items
  | [], models, done, out, hout => by
    rw [getSubModels] at hout
    rw [← Option.some.inj hout]
    simp [Item.nodesOf]
  | child :: items, models, done, out, hout => by
    rw [getSubModels] at hout
    cases hchild : Map h c fuel child with
    | none => simp [hchild] at hout
    | some result =>
      simp only [hchild] at hout
      have hrest := getSubModels_nodes h c fuel items _ _ out hout
      have hfirst := Map_nodes h c fuel child result hchild
      rw [hrest, Model.nodesOf_append, Item.nodesOf, ← hfirst]
      simp [Model.nodesOf, Nat.add_assoc]

end

theorem Map_nodes_of_result (h : Helpers) (c : Collaborators) (fuel : Nat) (item : Item)
    (model : Model) (hmap : MapModel h c fuel item = some model) :
    model.nodes = item.nodes := by
  unfold MapModel at hmap
  cases hres : Map h c fuel item with
  | none => simp [hres] at hmap
  | some result =>
    simp only [hres, Option.map_some', Option.some.injEq] at hmap
    rw [← hmap]
    exact Map_nodes h c fuel item result hres

theorem String.eq_empty_of_append_eq_empty (a b : String) (hab : a ++ b = "") : a = "" := by
  have hdata := congrArg String.data hab
  simp only [String.data_append, List.append_eq_nil] at hdata
  exact String.ext hdata.1

/-- C12: the `PlaceName` of the geo-view is the empty string exactly when the
title of the item or its city is empty; otherwise it is the title, the city and
the country joined with ", ". -/
theorem getPlaceName_spec (item : Item) :
    ((getGeoLocation item).PlaceName = "" ↔
        (item.Title = "" ∨ item.MetaData.GeoData.City = "")) ∧
      (¬ (item.Title = "" ∨ item.MetaData.GeoData.City = "") →
        (getGeoLocation item).PlaceName =
          item.Title ++ ", " ++ item.MetaData.GeoData.City ++ ", " ++
            item.MetaData.GeoData.Country) := by
  have hplace : (getGeoLocation item).PlaceName = getPlaceName item := rfl
  rw [hplace]
  by_cases hempty : item.Title = "" ∨ item.MetaData.GeoData.City = ""
  · refine ⟨?_, fun hnot => absurd hempty hnot⟩
    simp [getPlaceName, hempty]
  · have hjoin : getPlaceName item =
        item.Title ++ ", " ++ item.MetaData.GeoData.City ++ ", " ++
          item.MetaData.GeoData.Country := by
      rw [getPlaceName, if_neg hempty]
      rfl
    refine ⟨⟨fun hnone => ?_, fun h => absurd h hempty⟩, fun _ => hjoin⟩
    rw [hjoin, String.append_assoc, String.append_assoc, String.append_assoc] at hnone
    exact absurd (Or.inl (String.eq_empty_of_append_eq_empty _ _ hnone)) hempty

/-- Witness of C12: title "Berlin HQ", city "Berlin", country "Germany". -/
theorem getPlaceName_spec_witness :
    ¬ (exHeadquarters.Title = "" ∨ exHeadquarters.MetaData.GeoData.City = "") ∧
      exHeadquarters.Title ++ ", " ++ exHeadquarters.MetaData.GeoData.City ++ ", " ++
        exHeadquarters.MetaData.GeoData.Country = "Berlin HQ, Berlin, Germany" ∧
      (getGeoLocation exHeadquarters).PlaceName =
        exHeadquarters.Title ++ ", " ++ exHeadquarters.MetaData.GeoData.City ++ ", " ++
          exHeadquarters.MetaData.GeoData.Country :=
  ⟨by decide, by decide, (getPlaceName_spec exHeadquarters).2 (by decide)⟩

/-- C13: the `Address` is the street, the postcode, the city and the country
joined with ", ", whichever of them are empty: the three separators of the join
are always there. -/
theorem getAddress_spec (geoData : GeoInformation) (item : Item) :
    getAddress geoData =
        geoData.Street ++ ", " ++ geoData.Postcode ++ ", " ++ geoData.City ++ ", " ++
          geoData.Country ∧
      (getGeoLocation item).Address = getAddress item.MetaData.GeoData ∧
      getAddress
          { Street := "", City := "Berlin", Postcode := "10115", Country := "Germany",
            Latitude := "", Longitude := "", MapType := "", Zoom := 0 }
        = ", 10115, Berlin, Germany" :=
  ⟨rfl, rfl, by decide⟩

/-- C14: the `Coordinates` are the empty string exactly when the latitude or the
longitude is empty; otherwise they are the latitude, "; " and the longitude. -/
theorem getCoordinates_spec (geoData : GeoInformation) :
    (getCoordinates geoData = "" ↔ (geoData.Latitude = "" ∨ geoData.Longitude = "")) ∧
      (¬ (geoData.Latitude = "" ∨ geoData.Longitude = "") →
        getCoordinates geoData = geoData.Latitude ++ "; " ++ geoData.Longitude) := by
  by_cases hempty : geoData.Latitude = "" ∨ geoData.Longitude = ""
  · refine ⟨?_, fun hnot => absurd hempty hnot⟩
    simp [getCoordinates, hempty]
  · have hjoin : getCoordinates geoData = geoData.Latitude ++ "; " ++ geoData.Longitude := by
      rw [getCoordinates, if_neg hempty]
    refine ⟨⟨fun hnone => ?_, fun h => absurd h hempty⟩, fun _ => hjoin⟩
    rw [hjoin, String.append_assoc] at hnone
    exact absurd (Or.inl (String.eq_empty_of_append_eq_empty _ _ hnone)) hempty

/-- Witness of C14: latitude "52.5" and longitude "13.4". -/
theorem getCoordinates_spec_witness :
    ¬ (exHeadquarters.MetaData.GeoData.Latitude = "" ∨
        exHeadquarters.MetaData.GeoData.Longitude = "") ∧
      (getGeoLocation exHeadquarters).Coordinates = "52.5; 13.4" ∧
      getCoordinates exHeadquarters.MetaData.GeoData =
        exHeadquarters.MetaData.GeoData.Latitude ++ "; " ++
          exHeadquarters.MetaData.GeoData.Longitude :=
  ⟨by decide, by decide, (getCoordinates_spec exHeadquarters.MetaData.GeoData).2 (by decide)⟩

theorem getModel_geoLocation (h : Helpers) (c : Collaborators) (fuel : Nat) (item : Item)
    (model : Model) (hmodel : getModel h c fuel item = some model) :
    model.GeoLocation = some (getGeoLocation item) := by
  cases fuel with
  | zero => simp [getModel] at hmodel
  | succ n =>
    rw [getModel] at hmodel
    cases hloop : getLocationsLoop (getModel h c n) c.itemResolver item.MetaData.Locations [] with
    | none => simp [hloop] at hmodel
    | some locations =>
      simp only [hloop, Option.some.injEq] at hmodel
      rw [← hmodel]
      rfl

/-- C15 as amended: an item with no geo-information still gets a geo-view
(`getGeoLocation` always returns one and `getModel` always stores it), and in it
the place name, the coordinates and every field passed through are empty or
zero; the address is not empty: it is the three separators of the join,
", , , ". -/
theorem geo_view_without_geo_information (h : Helpers) (c : Collaborators) (fuel : Nat)
    (item : Item) (hgeo : item.MetaData.GeoData = noGeoInformation) :
    getGeoLocation item =
        { PlaceName := "", Address := ", , , ", Coordinates := "", Street := "", City := "",
          Postcode := "", Country := "", Latitude := "", Longitude := "", MapType := "",
          Zoom := 0 } ∧
      ∀ model, getModel h c fuel item = some model →
        model.GeoLocation = some (getGeoLocation item) := by
  constructor
  · simp only [getGeoLocation, getPlaceName, getAddress, getCoordinates, hgeo,
      noGeoInformation, or_true, true_or, if_true]
    rfl
  · intro model hmodel
    exact getModel_geoLocation h c fuel item model hmodel

/-- Witness of C15 as amended: the sample message has no geo-information. -/
theorem geo_view_without_geo_information_witness :
    exNote.MetaData.GeoData = noGeoInformation ∧
      getModel exHelpers exCollaborators 1 exNote = some (exModel "Note" MessageItemType [] []) ∧
      (exModel "Note" MessageItemType [] []).GeoLocation = some (getGeoLocation exNote) ∧
      (getGeoLocation exNote).Address = ", , , " ∧ (getGeoLocation exNote).PlaceName = "" :=
  ⟨by decide, rfl,
    (geo_view_without_geo_information exHelpers exCollaborators 1 exNote (by decide)).2 _ rfl,
    by decide, by decide⟩

/-- Counterexample to C15: the sample message has no geo-information and the
`Address` of its geo-view is not the empty string. -/
theorem getGeoLocation_address_counterexample :
    exNote.MetaData.GeoData = noGeoInformation ∧
      (getGeoLocation exNote).Address = ", , , " ∧ (getGeoLocation exNote).Address ≠ "" := by
  decide

theorem foldl_append_singleton {α β : Type} (f : α → β) :
    ∀ (xs : List α) (acc : List β),
      xs.foldl (fun out x => out ++ [f x]) acc = acc ++ xs.map f := by
  intro xs
  induction xs with
  | nil => intro acc; simp
  | cons x rest ih => intro acc; simp [List.foldl_cons, ih]

/-- C16: `getTags` returns one entry per tag of the item's metadata, in the
stored order and with duplicates kept: the k-th entry has the name of the k-th
tag and the route `tagPath` returns for it. -/
theorem getTags_spec (item : Item) (tagPath : Tag → String) :
    getTags item tagPath =
        item.MetaData.Tags.map (fun tag => { Name := tag.Name, AbsoluteRoute := tagPath tag }) ∧
      (getTags item tagPath).length = item.MetaData.Tags.length := by
  have hmap : getTags item tagPath =
      item.MetaData.Tags.map (fun tag => { Name := tag.Name, AbsoluteRoute := tagPath tag }) := by
    unfold getTags
    rw [foldl_append_singleton (fun tag : Tag =>
      ({ Name := tag.Name, AbsoluteRoute := tagPath tag } : ViewTag))]
    simp
  exact ⟨hmap, by rw [hmap, List.length_map]⟩

/-- Witness of C16: the sample item is tagged "go", "web" and "go" again. -/
theorem getTags_spec_witness :
    exHeadquarters.MetaData.Tags = [exTagGo, exTagWeb, exTagGo] ∧
      getTags exHeadquarters exCollaborators.tagPath =
        [{ Name := "go", AbsoluteRoute := "/tags/go" },
         { Name := "web", AbsoluteRoute := "/tags/web" },
         { Name := "go", AbsoluteRoute := "/tags/go" }] :=
  ⟨rfl, (getTags_spec exHeadquarters exCollaborators.tagPath).1.trans (by decide)⟩

/-! ## The tag index: declared tags, repeated adds and the frame of `Add` -/

namespace TagMap

variable {L : Type}

theorem set_of_get (tagmap : TagMap L) (tag : Tag) (itemlist : L)
    (hget : tagmap.get tag = some itemlist) : tagmap.set tag itemlist = tagmap := by
  induction tagmap with
  | nil => simp [get] at hget
  | cons entry rest ih =>
    obtain ⟨key, old⟩ := entry
    by_cases hkey : key = tag
    · simp only [get, hkey, if_true, Option.some.injEq] at hget
      simp [set, hkey, hget]
    · simp only [get, hkey, if_false] at hget
      simp [set, hkey, ih hget]

theorem get_foldl_addStep_isSome (ops : ItemListOps L) (item : Item) (other : Tag) :
    ∀ (tags : List Tag) (tagmap : TagMap L) (itemlist : L), tagmap.get other = some itemlist →
      ∃ itemlist', (tags.foldl (addStep ops item) tagmap).get other = some itemlist' := by
  intro tags
  induction tags with
  | nil => intro tagmap itemlist hget; exact ⟨itemlist, hget⟩
  | cons tag rest ih =>
    intro tagmap itemlist hget
    rw [List.foldl_cons]
    by_cases heq : other = tag
    · subst heq
      exact ih _ _ (get_addStep_self ops item tagmap other)
    · exact ih _ itemlist (by rw [get_addStep_ne ops item tagmap tag other heq, hget])

theorem foldl_addStep_of_contained (ops : ItemListOps L)
    (hidem : ∀ itemlist addr, ops.contains itemlist addr = true → ops.Add itemlist addr = itemlist)
    (item : Item) :
    ∀ (tags : List Tag) (tagmap : TagMap L),
      (∀ tag ∈ tags, ∃ itemlist, tagmap.get tag = some itemlist ∧
        ops.contains itemlist item.addr = true) →
      tags.foldl (addStep ops item) tagmap = tagmap := by
  intro tags
  induction tags with
  | nil => intro tagmap _; rfl
  | cons tag rest ih =>
    intro tagmap hall
    obtain ⟨itemlist, hget, hcontains⟩ := hall tag (List.mem_cons_self _ _)
    have hstep : addStep ops item tagmap tag = tagmap := by
      unfold addStep
      rw [hget]
      simp only []
      rw [hidem itemlist item.addr hcontains]
      exact set_of_get tagmap tag itemlist hget
    rw [List.foldl_cons, hstep]
    exact ih tagmap (fun t ht => hall t (List.mem_cons_of_mem _ ht))

/-- Every item a list of the map contains declares the tag the list is stored
under, the tags of an item being looked up by its address. -/
theorem declared_addStep (ops : ItemListOps L) (hops : ops.Lawful) (tagsOf : Nat → List Tag)
    (item : Item) (tagmap : TagMap L) (tag : Tag) (htag : tag ∈ tagsOf item.addr)
    (hinv : ∀ t itemlist, tagmap.get t = some itemlist →
      ∀ addr, ops.contains itemlist addr = true → t ∈ tagsOf addr) :
    ∀ t itemlist, (addStep ops item tagmap tag).get t = some itemlist →
      ∀ addr, ops.contains itemlist addr = true → t ∈ tagsOf addr := by
  intro t itemlist hget addr hcontains
  by_cases heq : t = tag
  · subst heq
    rw [get_addStep_self] at hget
    cases hold : tagmap.get t with
    | none =>
      rw [hold] at hget
      rw [← Option.some.inj hget] at hcontains
      rw [(hops.contains_new _ _).mp hcontains]
      exact htag
    | some old =>
      rw [hold] at hget
      rw [← Option.some.inj hget] at hcontains
      rcases (hops.contains_add _ _ _).mp hcontains with hsame | hwas
      · rw [hsame]
        exact htag
      · exact hinv t old hold addr hwas
  · rw [get_addStep_ne ops item tagmap tag t heq] at hget
    exact hinv t itemlist hget addr hcontains

theorem declared_Add (ops : ItemListOps L) (hops : ops.Lawful) (tagsOf : Nat → List Tag)
    (item : Item) (hmeta : item.MetaData.Tags = tagsOf item.addr) (tagmap : TagMap L)
    (hinv : ∀ t itemlist, tagmap.get t = some itemlist →
      ∀ addr, ops.contains itemlist addr = true → t ∈ tagsOf addr) :
    ∀ t itemlist, (tagmap.Add ops item).get t = some itemlist →
      ∀ addr, ops.contains itemlist addr = true → t ∈ tagsOf addr := by
  unfold Add
  have hsub : ∀ tag ∈ item.MetaData.Tags, tag ∈ tagsOf item.addr := by
    intro tag htag
    rw [← hmeta]
    exact htag
  generalize item.MetaData.Tags = tags at hsub
  induction tags generalizing tagmap with
  | nil => exact hinv
  | cons tag rest ih =>
    rw [List.foldl_cons]
    exact ih _
      (declared_addStep ops hops tagsOf item tagmap tag (hsub tag (List.mem_cons_self _ _)) hinv)
      (fun t ht => hsub t (List.mem_cons_of_mem _ ht))

theorem declared_Remove (ops : ItemListOps L) (hops : ops.Lawful) (tagsOf : Nat → List Tag)
    (item : Item) (tagmap : TagMap L) (hnodup : (tagmap.map Prod.fst).Nodup)
    (hinv : ∀ t itemlist, tagmap.get t = some itemlist →
      ∀ addr, ops.contains itemlist addr = true → t ∈ tagsOf addr) :
    ∀ t itemlist, (tagmap.Remove ops item).get t = some itemlist →
      ∀ addr, ops.contains itemlist addr = true → t ∈ tagsOf addr := by
  intro t itemlist hget addr hcontains
  rw [get_Remove_of_nodup ops tagmap item t hnodup] at hget
  cases hold : tagmap.get t with
  | none => simp [hold] at hget
  | some old =>
    simp only [hold] at hget
    by_cases hempty : ops.IsEmpty old = true
    · simp [hempty] at hget
    · rw [if_neg hempty] at hget
      rw [← Option.some.inj hget] at hcontains
      exact hinv t old hold addr ((hops.contains_remove _ _ _).mp hcontains).2

theorem declared_foldl_call (ops : ItemListOps L) (hops : ops.Lawful) (tagsOf : Nat → List Tag) :
    ∀ (calls : List TagMapCall) (tagmap : TagMap L),
      (∀ call ∈ calls, call.item.MetaData.Tags = tagsOf call.item.addr) →
      (tagmap.map Prod.fst).Nodup →
      (∀ t itemlist, tagmap.get t = some itemlist →
        ∀ addr, ops.contains itemlist addr = true → t ∈ tagsOf addr) →
      ∀ t itemlist, (calls.foldl (TagMap.call ops) tagmap).get t = some itemlist →
        ∀ addr, ops.contains itemlist addr = true → t ∈ tagsOf addr := by
  intro calls
  induction calls with
  | nil => intro tagmap _ _ hinv; exact hinv
  | cons first rest ih =>
    intro tagmap hmeta hnodup hinv
    rw [List.foldl_cons]
    have hrest : ∀ call ∈ rest, call.item.MetaData.Tags = tagsOf call.item.addr :=
      fun call hcall => hmeta call (List.mem_cons_of_mem _ hcall)
    have hfirst := hmeta first (List.mem_cons_self _ _)
    cases first with
    | add item =>
      exact ih _ hrest (nodup_Add ops tagmap item hnodup)
        (declared_Add ops hops tagsOf item hfirst tagmap hinv)
    | remove item =>
      exact ih _ hrest (nodup_foldl_removeStep ops item tagmap tagmap hnodup)
        (declared_Remove ops hops tagsOf item tagmap hnodup hinv)

end TagMap

theorem setItemList_lawful : setItemList.Lawful where
  contains_new := by
    intro p q
    simp [setItemList]
  contains_add := by
    intro l p q
    by_cases hmem : p ∈ l
    · have hcontains : l.contains p = true := by simpa using hmem
      simp only [setItemList, hcontains, if_true]
      constructor
      · intro hq; exact Or.inr hq
      · rintro (hq | hq)
        · rw [hq]; exact hcontains
        · exact hq
    · simp [setItemList, hmem, or_comm]
  contains_remove := by
    intro l p q
    simp [setItemList, and_comm]
  isEmpty_iff := by
    intro l
    cases l with
    | nil => simp [setItemList]
    | cons first rest =>
      simp only [setItemList, List.isEmpty_cons, Bool.false_eq_true, false_iff, not_forall]
      exact ⟨first, by simp⟩

theorem setItemList_add_of_contains (itemlist : List Nat) (addr : Nat)
    (hcontains : setItemList.contains itemlist addr = true) :
    setItemList.Add itemlist addr = itemlist := by
  have hmem : itemlist.contains addr = true := hcontains
  simp only [setItemList, hmem, if_true]

/-- C17: in every state reached from `NewTagMap()` by `Add` and `Remove` calls
on items whose metadata tags stay the same (`tagsOf` gives the tags of the item
at an address), every item contained in the list stored under a tag has that tag
among its metadata tags. -/
theorem run_lists_hold_declaring_items {L : Type} (ops : ItemListOps L) (hops : ops.Lawful)
    (tagsOf : Nat → List Tag) (calls : List TagMapCall)
    (hmeta : ∀ call ∈ calls, call.item.MetaData.Tags = tagsOf call.item.addr)
    (tag : Tag) (itemlist : L) (hget : (TagMap.run ops calls).get tag = some itemlist)
    (addr : Nat) (hcontains : ops.contains itemlist addr = true) :
    tag ∈ tagsOf addr :=
  TagMap.declared_foldl_call ops hops tagsOf calls NewTagMap hmeta List.nodup_nil
    (fun _ _ hnone => by cases hnone) tag itemlist hget addr hcontains

/-- Witness of C17: two items are added and the first is removed again; the
list left under "web" holds the item at address 21, which declares "web". -/
theorem run_lists_hold_declaring_items_witness :
    sliceItemList.Lawful ∧
      (∀ call ∈ [TagMapCall.add exTagged, TagMapCall.add exTwoTags, TagMapCall.remove exTagged],
        call.item.MetaData.Tags = exTagsOf call.item.addr) ∧
      (TagMap.run sliceItemList
        [TagMapCall.add exTagged, TagMapCall.add exTwoTags, TagMapCall.remove exTagged]).get
          exTagWeb = some [21] ∧
      sliceItemList.contains [21] 21 = true ∧
      exTagWeb ∈ exTagsOf 21 :=
  ⟨sliceItemList_lawful, by decide, by decide, by decide,
    run_lists_hold_declaring_items sliceItemList sliceItemList_lawful exTagsOf
      [TagMapCall.add exTagged, TagMapCall.add exTwoTags, TagMapCall.remove exTagged]
      (by decide) exTagWeb [21] (by decide) 21 (by decide)⟩

/-- C18 as amended: when the `Add` of the item list returns a list that already
contains the item as it is, `Add(item); Add(item)` gives the map a single
`Add(item)` gives; `TagMap.Add` itself checks nothing and calls the list's `Add`
again for every tag of the item. -/
theorem Add_twice_of_idempotent_list {L : Type} (ops : ItemListOps L) (hops : ops.Lawful)
    (hidem : ∀ itemlist addr, ops.contains itemlist addr = true → ops.Add itemlist addr = itemlist)
    (tagmap : TagMap L) (item : Item) :
    (tagmap.Add ops item).Add ops item = tagmap.Add ops item :=
  TagMap.foldl_addStep_of_contained ops hidem item item.MetaData.Tags (tagmap.Add ops item)
    (fun tag htag => TagMap.foldl_addStep_adds ops hops item tag _ tagmap htag)

/-- Witness of C18 as amended: the set-like item list; the item at address 20
is stored once under "go" after one `Add` and after two. -/
theorem Add_twice_of_idempotent_list_witness :
    setItemList.Lawful ∧
      (∀ itemlist addr, setItemList.contains itemlist addr = true →
        setItemList.Add itemlist addr = itemlist) ∧
      TagMap.Add setItemList NewTagMap exTagged = [(exTagGo, [20])] ∧
      (TagMap.Add setItemList NewTagMap exTagged).Add setItemList exTagged
        = TagMap.Add setItemList NewTagMap exTagged :=
  ⟨setItemList_lawful, setItemList_add_of_contains, by decide,
    Add_twice_of_idempotent_list setItemList setItemList_lawful setItemList_add_of_contains
      NewTagMap exTagged⟩

/-- Counterexample to C18: with the item list that appends, the second
`Add(item)` stores the item at address 20 a second time under "go", so the map
after two adds is not the map after one. -/
theorem Add_twice_appends_counterexample :
    TagMap.Add sliceItemList NewTagMap exTagged = [(exTagGo, [20])] ∧
      (TagMap.Add sliceItemList NewTagMap exTagged).Add sliceItemList exTagged
        = [(exTagGo, [20, 20])] ∧
      (TagMap.Add sliceItemList NewTagMap exTagged).Add sliceItemList exTagged
        ≠ TagMap.Add sliceItemList NewTagMap exTagged := by
  decide

/-- C20: for a tag that is not among the item's metadata tags, `Add(item)`
leaves the entry as it was: the tag is a key after the call exactly when it was
one before, with the same list; and no key of the map is lost by `Add`. -/
theorem Add_touches_own_tags_only {L : Type} (ops : ItemListOps L) (tagmap : TagMap L)
    (item : Item) (tag : Tag) (htag : tag ∉ item.MetaData.Tags) :
    (tagmap.Add ops item).get tag = tagmap.get tag ∧
      ∀ other itemlist, tagmap.get other = some itemlist →
        ∃ itemlist', (tagmap.Add ops item).get other = some itemlist' :=
  ⟨TagMap.get_foldl_addStep_of_not_mem ops item tag item.MetaData.Tags tagmap htag,
    fun other itemlist hget =>
      TagMap.get_foldl_addStep_isSome ops item other item.MetaData.Tags tagmap itemlist hget⟩

/-- Witness of C20: the item tagged "go" is added to a map with the keys "go"
and "web"; the entry of "web" stays as it was. -/
theorem Add_touches_own_tags_only_witness :
    exTagWeb ∉ exTagged.MetaData.Tags ∧
      (TagMap.Add sliceItemList NewTagMap exTwoTags).get exTagWeb = some [21] ∧
      ((TagMap.Add sliceItemList NewTagMap exTwoTags).Add sliceItemList exTagged).get exTagWeb
        = (TagMap.Add sliceItemList NewTagMap exTwoTags).get exTagWeb :=
  ⟨by decide, by decide,
    (Add_touches_own_tags_only sliceItemList (TagMap.Add sliceItemList NewTagMap exTwoTags)
      exTagged exTagWeb (by decide)).1⟩

/-! ## The mapper: the back-reference -/

theorem Item.fields_of_eraseModel_eq (a b : Item) (hab : a.eraseModel = b.eraseModel) :
    a.addr = b.addr ∧ a.Level = b.Level ∧ a.Title = b.Title ∧ a.Description = b.Description ∧
      a.MetaData = b.MetaData := by
  cases a with
  | mk addr level title description metaData childs model =>
    cases b with
    | mk addr' level' title' description' metaData' childs' model' =>
      simp only [Item.eraseModel, Item.mk.injEq] at hab
      exact ⟨hab.1, hab.2.1, hab.2.2.1, hab.2.2.2.1, hab.2.2.2.2.1⟩

theorem getModel_congr_eraseModel (h : Helpers) (c : Collaborators) (hpure : c.IgnoreModel)
    (fuel : Nat) (a b : Item) (hab : a.eraseModel = b.eraseModel) :
    getModel h c fuel a = getModel h c fuel b := by
  obtain ⟨-, hlevel, htitle, hdescription, hmeta⟩ := Item.fields_of_eraseModel_eq a b hab
  obtain ⟨hrel, habs, hcontent⟩ := hpure a b hab
  cases fuel with
  | zero => rfl
  | succ n =>
    have htags : getTags a c.tagPath = getTags b c.tagPath := by
      unfold getTags
      rw [hmeta]
    have hgeo : getGeoLocation a = getGeoLocation b := by
      simp only [getGeoLocation, getPlaceName, hmeta, htitle]
    rw [getModel, getModel, hmeta, hlevel, htitle, hdescription, hrel, habs, hcontent, htags,
      hgeo]

mutual

theorem Map_effect (h : Helpers) (c : Collaborators) (fuel : Nat) :
    ∀ (item : Item) (result : Model × Item), Map h c fuel item = some result →
      Item.attachedFrom item result.2 result.1 ∧ result.2.eraseModel = item.eraseModel ∧
        (c.IgnoreModel → Map h c fuel result.2 = some result)
  | Item.mk addr level title description metaData childs oldModel, result, hmap => by
    by_cases hty : metaData.ItemType ∈ recognizedItemTypes
    · obtain ⟨base, models, childs', hbase, hsub, hresult⟩ :=
        (Map_of_recognized h c fuel
          (Item.mk addr level title description metaData childs oldModel) hty result).mp hmap
      obtain ⟨results, hresults, hout⟩ := (getSubModels_eq_some h c fuel _ _ _ _).mp hsub
      simp only [List.nil_append, Prod.mk.injEq] at hout
      obtain ⟨hattached, herase, hagain⟩ := getSubModels_effect h c fuel childs results hresults
      simp only [Item.addr, Item.Level, Item.Title, Item.Description, Item.MetaData,
        Item.Childs] at hresult
      have herase' : (Item.mk addr level title description metaData childs'
          (some (base.setChilds models))).eraseModel =
          (Item.mk addr level title description metaData childs oldModel).eraseModel := by
        simp only [Item.eraseModel, hout.2, herase]
      rw [hresult]
      refine ⟨?_, herase', ?_⟩
      · rw [Item.attachedFrom, if_pos hty]
        refine ⟨rfl, ?_⟩
        simp only [Item.Childs, Model.setChilds_childs, hout.1, hout.2]
        exact hattached
      · intro hpure
        refine (Map_of_recognized h c fuel
          (Item.mk addr level title description metaData childs' (some (base.setChilds models)))
          hty _).mpr ⟨base, models, childs', ?_, ?_, rfl⟩
        · rw [getModel_congr_eraseModel h c hpure fuel _ _ herase']
          exact hbase
        · refine (getSubModels_eq_some h c fuel _ _ _ _).mpr ⟨results, ?_, ?_⟩
          · simp only [Item.Childs, hout.2]
            exact hagain hpure
          · simp only [List.nil_append, hout.1, hout.2]
    · have hmap' := hmap
      rw [Map_of_unrecognized h c fuel
        (Item.mk addr level title description metaData childs oldModel) hty] at hmap'
      simp only [Item.addr, Item.Level, Item.Title, Item.Description, Item.MetaData,
        Item.Childs] at hmap'
      rw [← Option.some.inj hmap']
      have herase' : (Item.mk addr level title description metaData childs
          (some (viewError "Item type not recognized"
            ("There is no mapper available for items of type " ++ h.quote metaData.ItemType)
            (c.relativePath (Item.mk addr level title description metaData childs oldModel))
            (c.absolutePath (Item.mk addr level title description metaData childs oldModel))))
          ).eraseModel =
          (Item.mk addr level title description metaData childs oldModel).eraseModel := by
        simp only [Item.eraseModel]
      refine ⟨?_, herase', ?_⟩
      · rw [Item.attachedFrom, if_neg hty]
        exact ⟨rfl, rfl⟩
      · intro hpure
        obtain ⟨hrel, habs, -⟩ := hpure _ _ herase'
        rw [Map_of_unrecognized h c fuel
          (Item.mk addr level title description metaData childs
            (some (viewError "Item type not recognized"
              ("There is no mapper available for items of type " ++ h.quote metaData.ItemType)
              (c.relativePath (Item.mk addr level title description metaData childs oldModel))
              (c.absolutePath (Item.mk addr level title description metaData childs oldModel)))))
          hty]
        simp only [Item.addr, Item.Level, Item.Title, Item.Description, Item.MetaData,
          Item.Childs, hrel, habs]

theorem getSubModels_effect (h : Helpers) (c : Collaborators) (fuel : Nat) :
    ∀ (items : List Item) (results : List (Model × Item)),
      items.map (Map h c fuel) = results.map some →
      Item.attachedFromAll items (results.map Prod.snd) (results.map Prod.fst) ∧
        Item.eraseModelOf (results.map Prod.snd) = Item.eraseModelOf items ∧
        (c.IgnoreModel → (results.map Prod.snd).map (Map h c fuel) = results.map some)
  | [], results, hresults => by
    cases results with
    | nil => exact ⟨⟨rfl, rfl⟩, rfl, fun _ => rfl⟩
    | cons r rs => simp at hresults
  | child :: items, results, hresults => by
    cases results with
    | nil => simp at hresults
    | cons r rs =>
      simp only [List.map_cons, List.cons.injEq] at hresults
      obtain ⟨hfirst, hrest⟩ := hresults
      obtain ⟨hattached, herase, hagain⟩ := Map_effect h c fuel child r hfirst
      obtain ⟨hattached', herase', hagain'⟩ := getSubModels_effect h c fuel items rs hrest
      refine ⟨?_, ?_, ?_⟩
      · simp only [List.map_cons, Item.attachedFromAll]
        exact ⟨hattached, hattached'⟩
      · simp only [List.map_cons, Item.eraseModelOf, herase, herase']
      · intro hpure
        simp only [List.map_cons, hagain hpure, hagain' hpure]

end

theorem exCollaborators_ignoreModel : exCollaborators.IgnoreModel := by
  intro a b hab
  obtain ⟨-, -, htitle, hdescription, -⟩ := Item.fields_of_eraseModel_eq a b hab
  simp only [exCollaborators, htitle, hdescription, and_self]

/-- C19 as amended: after `Map(item)` the item and every item below it that was
mapped carry the view model produced for them in `Model`, the items below an
item of unrecognized type are untouched, and no other field of any item of the
tree has changed; when the results of the path and content functions do not
depend on the `Model` back-references, mapping the item again returns the same
view model and leaves the same item. -/
theorem Map_attaches_model_only (h : Helpers) (c : Collaborators) (fuel : Nat) (item : Item)
    (model : Model) (item' : Item) (hmap : Map h c fuel item = some (model, item')) :
    Item.attachedFrom item item' model ∧ item'.eraseModel = item.eraseModel ∧
      (c.IgnoreModel → Map h c fuel item' = some (model, item')) :=
  Map_effect h c fuel item (model, item') hmap

/-- Witness of C19 as amended: the sample document under the sample
collaborators, which read the title and the description only. -/
theorem Map_attaches_model_only_witness :
    Map exHelpers exCollaborators 3 exOffice = some (exOfficeModel, exOfficeAfter) ∧
      exCollaborators.IgnoreModel ∧
      exOfficeAfter.Model = some exOfficeModel ∧
      exOfficeAfter.eraseModel = exOffice.eraseModel ∧
      Map exHelpers exCollaborators 3 exOfficeAfter = some (exOfficeModel, exOfficeAfter) :=
  ⟨rfl, exCollaborators_ignoreModel, rfl,
    (Map_attaches_model_only exHelpers exCollaborators 3 exOffice exOfficeModel exOfficeAfter
      rfl).2.1,
    (Map_attaches_model_only exHelpers exCollaborators 3 exOffice exOfficeModel exOfficeAfter
      rfl).2.2 exCollaborators_ignoreModel⟩

/-- Counterexample to C19: a content function that returns the content cached in
the attached view model when there is one has no side effect, and mapping the
sample message a second time returns a view model with another content. -/
theorem Map_again_counterexample :
    (Map exHelpers exCachingCollaborators 1 exNote).map (fun result => result.1.Content)
        = some "rendered Note" ∧
      ((Map exHelpers exCachingCollaborators 1 exNote).bind
          (fun result => Map exHelpers exCachingCollaborators 1 result.2)).map
          (fun result => result.1.Content)
        = some "cached Note" := by
  decide

/-! ## The mapper: results that are produced -/

theorem Map_exLoop (fuel : Nat) : Map exHelpers exCollaborators fuel exLoop = none := by
  cases hres : Map exHelpers exCollaborators fuel exLoop with
  | none => rfl
  | some result =>
    obtain ⟨base, -, -, hbase, -⟩ :=
      (Map_of_recognized exHelpers exCollaborators fuel exLoop (by decide) result).mp hres
    rw [getModel_exLoop] at hbase
    cases hbase

theorem Map_exLoopParent (fuel : Nat) :
    Map exHelpers exCollaborators fuel exLoopParent = none := by
  cases hres : Map exHelpers exCollaborators fuel exLoopParent with
  | none => rfl
  | some result =>
    obtain ⟨base, models, childs', -, hsub, -⟩ :=
      (Map_of_recognized exHelpers exCollaborators fuel exLoopParent (by decide) result).mp hres
    obtain ⟨results, hresults, -⟩ :=
      (getSubModels_eq_some exHelpers exCollaborators fuel _ _ _ _).mp hsub
    have hchilds : exLoopParent.Childs = [exNote, exLoop] := rfl
    rw [hchilds] at hresults
    cases results with
    | nil => simp at hresults
    | cons first rest =>
      cases rest with
      | nil => simp at hresults
      | cons second others =>
        simp only [List.map_cons, List.cons.injEq, Map_exLoop] at hresults
        exact absurd hresults.2.1 (by simp)

theorem getModel_exLoopRoot (fuel : Nat) :
    getModel exHelpers exCollaborators fuel exLoopRoot = none := by
  cases fuel with
  | zero => rfl
  | succ n =>
    have hlocations : exLoopRoot.MetaData.Locations = [{ name := "loop" }] := rfl
    have hres : exCollaborators.itemResolver (Location.String { name := "loop" }) = some exLoop :=
      rfl
    rw [getModel, hlocations]
    simp only [getLocationsLoop, hres, getModel_exLoop]

theorem Map_exLoopRoot (fuel : Nat) : Map exHelpers exCollaborators fuel exLoopRoot = none := by
  cases hres : Map exHelpers exCollaborators fuel exLoopRoot with
  | none => rfl
  | some result =>
    obtain ⟨base, -, -, hbase, -⟩ :=
      (Map_of_recognized exHelpers exCollaborators fuel exLoopRoot (by decide) result).mp hres
    rw [getModel_exLoopRoot] at hbase
    cases hbase

/-- C1 as amended: for an item of one of the five recognized types, whenever
`Map` returns a view model its child list has the length of `item.Childs` and
its k-th element is the view model `Map` returns for the k-th child, in the
original order; and `Map` does return such a view model when the chains of
location references followed through the resolver from the items of the tree
have at most `depth` items. -/
theorem Map_childs_in_order (h : Helpers) (c : Collaborators) (depth : Nat) (item : Item)
    (hty : item.MetaData.ItemType ∈ recognizedItemTypes) :
    (∀ model, MapModel h c depth item = some model →
        model.Childs.length = item.Childs.length ∧
          model.Childs.map some = item.Childs.map (MapModel h c depth)) ∧
      (Item.all (locationDepthWithin c depth) item = true →
        ∃ model, MapModel h c depth item = some model ∧
          model.Childs.length = item.Childs.length ∧
          model.Childs.map some = item.Childs.map (MapModel h c depth)) := by
  refine ⟨fun model hmap => Map_childs_of_result h c depth item model hty hmap, fun hbound => ?_⟩
  obtain ⟨result, hresult⟩ := Map_returns_of_all h c depth item hbound
  have hmap : MapModel h c depth item = some result.1 := by
    rw [MapModel, hresult]
    rfl
  exact ⟨result.1, hmap, Map_childs_of_result h c depth item result.1 hty hmap⟩

/-- Witness of C1 as amended: the sample document with a message child and a
child of unknown type; its longest chain of references is Office, Berlin,
Germany, and each child appears at its place in the child list. -/
theorem Map_childs_in_order_witness :
    exOffice.MetaData.ItemType ∈ recognizedItemTypes ∧
      Item.all (locationDepthWithin exCollaborators 3) exOffice = true ∧
      MapModel exHelpers exCollaborators 3 exOffice = some exOfficeModel ∧
      exOfficeModel.Childs.length = exOffice.Childs.length ∧
      exOfficeModel.Childs.map some = exOffice.Childs.map (MapModel exHelpers exCollaborators 3) ∧
      ∃ model, MapModel exHelpers exCollaborators 3 exOffice = some model ∧
        model.Childs.length = exOffice.Childs.length ∧
        model.Childs.map some = exOffice.Childs.map (MapModel exHelpers exCollaborators 3) :=
  ⟨by decide, by decide, rfl,
    ((Map_childs_in_order exHelpers exCollaborators 3 exOffice (by decide)).1 exOfficeModel rfl).1,
    ((Map_childs_in_order exHelpers exCollaborators 3 exOffice (by decide)).1 exOfficeModel rfl).2,
    (Map_childs_in_order exHelpers exCollaborators 3 exOffice (by decide)).2 (by decide)⟩

/-- Counterexample to C1: the sample document "Parent" is of a recognized type
and has two children, the second of which refers to itself through the resolver;
`Map` returns no view model for it however many nested calls are allowed, so
there is no child list. -/
theorem Map_childs_no_result_counterexample :
    exLoopParent.MetaData.ItemType ∈ recognizedItemTypes ∧ exLoopParent.Childs.length = 2 ∧
      ¬ ∃ fuel model, MapModel exHelpers exCollaborators fuel exLoopParent = some model := by
  refine ⟨by decide, by decide, ?_⟩
  rintro ⟨fuel, model, hmodel⟩
  rw [MapModel, Map_exLoopParent] at hmodel
  cases hmodel

/-- C11 as amended: whenever `Map` returns a view model, the number of view
models in its tree, counted through the `Childs` lists, is the number of items
of the content tree, an item of unrecognized type counting as a leaf whatever it
has below it; and `Map` does return such a view model when the chains of
location references followed through the resolver from the items of the tree
have at most `depth` items. -/
theorem Map_preserves_node_count (h : Helpers) (c : Collaborators) (depth : Nat) (item : Item) :
    (∀ model, MapModel h c depth item = some model → model.nodes = item.nodes) ∧
      (Item.all (locationDepthWithin c depth) item = true →
        ∃ model, MapModel h c depth item = some model ∧ model.nodes = item.nodes) := by
  refine ⟨fun model hmap => Map_nodes_of_result h c depth item model hmap, fun hbound => ?_⟩
  obtain ⟨result, hresult⟩ := Map_returns_of_all h c depth item hbound
  have hmap : MapModel h c depth item = some result.1 := by
    rw [MapModel, hresult]
    rfl
  exact ⟨result.1, hmap, Map_nodes_of_result h c depth item result.1 hmap⟩

/-- Witness of C11 as amended: the sample document has a message child and a
child of unknown type that has a child of its own: three view models, the item
below the child of unknown type not being counted. -/
theorem Map_preserves_node_count_witness :
    Item.all (locationDepthWithin exCollaborators 3) exOffice = true ∧
      MapModel exHelpers exCollaborators 3 exOffice = some exOfficeModel ∧
      exOffice.nodes = 3 ∧ exOdd.Childs.length = 1 ∧
      exOfficeModel.nodes = exOffice.nodes ∧
      ∃ model, MapModel exHelpers exCollaborators 3 exOffice = some model ∧
        model.nodes = exOffice.nodes :=
  ⟨by decide, rfl, by decide, by decide,
    (Map_preserves_node_count exHelpers exCollaborators 3 exOffice).1 exOfficeModel rfl,
    (Map_preserves_node_count exHelpers exCollaborators 3 exOffice).2 (by decide)⟩

/-- Counterexample to C11: the sample repository root is a content tree of two
items; its location reference resolves to an item that refers to itself, and
`Map` returns no view model for the tree however many nested calls are allowed,
so there are no view models to count. -/
theorem Map_node_count_no_result_counterexample :
    exLoopRoot.nodes = 2 ∧
      ¬ ∃ fuel model, MapModel exHelpers exCollaborators fuel exLoopRoot = some model := by
  refine ⟨by decide, ?_⟩
  rintro ⟨fuel, model, hmodel⟩
  rw [MapModel, Map_exLoopRoot] at hmodel
  cases hmodel

end Allmark
